import Mathlib

/-!
# Verification of the piggo-translate upstream request multiplexer and audio codec

This development shallowly embeds the core of the repository:

* `src/api/src/utils/AudioUtils.ts` — the audio codec
  (`decodeBase64PcmChunksToWavBlob`, `boostPcm16Volume`, `encodePcm16ToWav`);
* the realtime request multiplexer `OpenAiTranslator`
  (queue/slot state machine, settle functions, `processNextRequest`,
  `onRealtimeMessage`, timeout and close handlers);
* the structured-definitions adapter `parseStructuredDefinitions`.

Modelling conventions:

* Byte buffers (`Buffer`) are `List Nat` with each element a byte value.
* JavaScript numbers in the codec's gain computation are modelled with exact
  rationals (`ℚ`); `Math.round x` is `⌊x + 1/2⌋` (its JavaScript definition).
  For the gain values that actually occur (`1.8` and `29490 / maxAbs`) the
  rounded results never sit close to a half-integer boundary relative to the
  double-precision error, so exact-rational and IEEE-double evaluation agree.
* `JSON.parse` is part of the JavaScript runtime, not repository code; a raw
  provider frame is therefore represented by its parse outcome
  (`Option OpenAiRealtimeServerEvent`, `none` meaning the frame is not valid
  JSON), and a structured model reply by a `JsonValue` tree.
* Promise callbacks (`resolveText` / `resolveAudio` / `reject`) are modelled
  as observable trace events carrying a ghost request id; ids are assigned
  consecutively at enqueue time, which is sound because the queue is the only
  entry point for requests.
-/

namespace PiggoTranslate

/-- JavaScript `String.prototype.trim()`: strip leading and trailing
whitespace. Implemented by structural recursion on the character list so that
it evaluates by kernel reduction. -/
def jsTrim (s : String) : String :=
  { data := ((s.data.dropWhile Char.isWhitespace).reverse.dropWhile
      Char.isWhitespace).reverse }

/-! ## Audio codec (`src/api/src/utils/AudioUtils.ts`) -/

/-- One 6-bit value per base64 alphabet character; `none` for characters
outside the alphabet (Node's lenient decoder skips them, including `=`). -/
def base64CharValue (c : Char) : Option Nat :=
  if 'A' ≤ c ∧ c ≤ 'Z' then some (c.toNat - 65)
  else if 'a' ≤ c ∧ c ≤ 'z' then some (c.toNat - 97 + 26)
  else if '0' ≤ c ∧ c ≤ '9' then some (c.toNat - 48 + 52)
  else if c = '+' then some 62
  else if c = '/' then some 63
  else none

/-- Reassemble bytes from a stream of 6-bit values, as base64 decoding does:
four values give three bytes, a trailing pair or triple gives one or two. -/
def base64Groups : List Nat → List Nat
  | a :: b :: c :: d :: rest =>
    (a * 4 + b / 16) :: ((b % 16) * 16 + c / 4) :: ((c % 4) * 64 + d) ::
      base64Groups rest
  | [a, b] => [a * 4 + b / 16]
  | [a, b, c] => [a * 4 + b / 16, (b % 16) * 16 + c / 4]
  | _ => []

/-- `Buffer.from(chunk, "base64")`: decode a base64 string to bytes. -/
def base64decode (s : String) : List Nat :=
  base64Groups (s.data.filterMap base64CharValue)

/-- `Buffer.readInt16LE`: a signed 16-bit little-endian sample from two bytes. -/
def readInt16LEPair (lo hi : Nat) : Int :=
  let u := lo % 256 + 256 * (hi % 256)
  if u < 32768 then (u : Int) else (u : Int) - 65536

/-- `Buffer.writeInt16LE`: the two's-complement little-endian bytes of `v`. -/
def writeInt16LE (v : Int) : List Nat :=
  let u := (v % 65536).toNat
  [u % 256, u / 256]

/-- The 16-bit samples of a PCM byte buffer, read at even offsets exactly as
the `offset + 1 < length` loops do; a trailing odd byte yields no sample. -/
def samplesLE : List Nat → List Int
  | lo :: hi :: rest => readInt16LEPair lo hi :: samplesLE rest
  | _ => []

/-- The `maxAbsoluteSample` scan of `boostPcm16Volume`: running maximum of the
absolute sample values, starting from `0`. -/
def maxAbsSamples (pcm : List Nat) : Nat :=
  ((samplesLE pcm).map Int.natAbs).foldl max 0

/-- JavaScript `Math.round`: floor of `x + 0.5` (halves round toward `+∞`). -/
def jsRound (q : ℚ) : Int := Int.floor (q + 1 / 2)

/-- `Math.max(-32768, Math.min(32767, v))`. -/
def clampSample (v : Int) : Int := max (-32768) (min 32767 v)

/-- Default `maxBoostFactor` parameter of `boostPcm16Volume` (`1.8`). -/
def maxBoostFactor : ℚ := 9 / 5

/-- Default `targetPeakAmplitude` parameter of `boostPcm16Volume` (`29490`). -/
def targetPeakAmplitude : ℚ := 29490

/-- The boosted bytes of one sample: read, scale, round, clamp, write. -/
def boostSampleBytes (gain : ℚ) (lo hi : Nat) : List Nat :=
  writeInt16LE (clampSample (jsRound (readInt16LEPair lo hi * gain)))

/-- The in-place rewrite loop of `boostPcm16Volume`: every complete sample is
boosted, a trailing odd byte is left as is. -/
def boostBytes (gain : ℚ) : List Nat → List Nat
  | lo :: hi :: rest => boostSampleBytes gain lo hi ++ boostBytes gain rest
  | rest => rest

/-- `boostPcm16Volume` from `AudioUtils.ts` (with its default parameters):
buffers shorter than one sample and silent buffers are returned unchanged,
otherwise the gain `max 1 (min maxBoostFactor (targetPeakAmplitude/maxAbs))`
is applied unless it is exactly `1`. -/
def boostPcm16Volume (pcmAudio : List Nat) : List Nat :=
  if pcmAudio.length < 2 then pcmAudio
  else
    let maxAbsoluteSample := maxAbsSamples pcmAudio
    if maxAbsoluteSample = 0 then pcmAudio
    else
      let safeBoostFactor : ℚ := targetPeakAmplitude / maxAbsoluteSample
      let gain : ℚ := max 1 (min maxBoostFactor safeBoostFactor)
      if gain = 1 then pcmAudio
      else boostBytes gain pcmAudio

/-- The bytes written by `writeUInt16LE`. -/
def u16LE (n : Nat) : List Nat := [n % 256, n / 256 % 256]

/-- The bytes written by `writeUInt32LE`. -/
def u32LE (n : Nat) : List Nat :=
  [n % 256, n / 256 % 256, n / 65536 % 256, n / 16777216 % 256]

/-- The 44-byte RIFF/WAVE header built by `encodePcm16ToWav`. -/
def wavHeader (dataSize sampleRate channelCount bitsPerSample : Nat) : List Nat :=
  let blockAlign := channelCount * bitsPerSample / 8
  let byteRate := sampleRate * blockAlign
  [82, 73, 70, 70] ++ u32LE (36 + dataSize) ++          -- "RIFF", RIFF size
  [87, 65, 86, 69] ++ [102, 109, 116, 32] ++            -- "WAVE", "fmt "
  u32LE 16 ++ u16LE 1 ++ u16LE channelCount ++          -- fmt size, PCM, channels
  u32LE sampleRate ++ u32LE byteRate ++                 -- rates
  u16LE blockAlign ++ u16LE bitsPerSample ++            -- alignment, bit depth
  [100, 97, 116, 97] ++ u32LE dataSize                  -- "data", data size

/-- `encodePcm16ToWav`: the header followed immediately by the PCM payload. -/
def encodePcm16ToWav (pcmAudio : List Nat) (sampleRate channelCount bitsPerSample : Nat) :
    List Nat :=
  wavHeader pcmAudio.length sampleRate channelCount bitsPerSample ++ pcmAudio

/-- A `Blob`: its byte content and MIME type. -/
structure Blob where
  data : List Nat
  type : String
  deriving DecidableEq, Repr

/-- `Blob.size` is the byte length. -/
def Blob.size (b : Blob) : Nat := b.data.length

/-- `decodeBase64PcmChunksToWavBlob` from `AudioUtils.ts`: empty fragment list
gives an empty `audio/wav` blob; otherwise decode and concatenate the
fragments, boost, and wrap in a WAV container. -/
def decodeBase64PcmChunksToWavBlob (chunks : List String) : Blob :=
  let sampleRate := 24000
  let channelCount := 1
  let bitsPerSample := 16
  if chunks.length = 0 then { data := [], type := "audio/wav" }
  else
    let pcmAudio := (chunks.map base64decode).flatten
    let boostedPcmAudio := boostPcm16Volume pcmAudio
    let wavAudio := encodePcm16ToWav boostedPcmAudio sampleRate channelCount bitsPerSample
    { data := wavAudio, type := "audio/wav" }

/-- C8: applying the codec to the empty fragment list returns a zero-length
WAV-typed result (a valid empty output); the function is total, so no error
is possible. -/
theorem c8_empty_fragment_list_zero_length :
    decodeBase64PcmChunksToWavBlob [] = { data := [], type := "audio/wav" } ∧
    (decodeBase64PcmChunksToWavBlob []).size = 0 :=
  ⟨rfl, rfl⟩

/-! ## Structured definitions adapter (`parseStructuredDefinitions`) -/

/-- A parsed JSON value, the outcome of the runtime's `JSON.parse` on the
model's structured reply. `obj` fields are the resulting object's properties
(`JSON.parse` keeps the last duplicate key, so the keys are distinct). -/
inductive JsonValue where
  | null
  | bool (b : Bool)
  | num (q : ℚ)
  | str (s : String)
  | arr (elems : List JsonValue)
  | obj (fields : List (String × JsonValue))

/-- Property access `v[key]` as used after the `typeof parsed === "object"`
checks: only objects expose the string keys read by the adapter. -/
def jsField (v : JsonValue) (key : String) : Option JsonValue :=
  match v with
  | .obj fields => fields.lookup key
  | _ => none

/-- The `!!value && typeof value === "object"` filter: JavaScript classifies
`null`, arrays and plain objects all as `typeof "object"`, but `!!null` is
false, so objects and arrays pass. -/
def isJsObjectLike : JsonValue → Bool
  | .obj _ => true
  | .arr _ => true
  | _ => false

/-- `typeof value.word === "string" ? value.word.trim() : ""`. -/
def defEntryWord (v : JsonValue) : String :=
  match jsField v "word" with
  | some (.str s) => jsTrim s
  | _ => ""

/-- `typeof value.definition === "string" ? value.definition.trim() : ""`. -/
def defEntryText (v : JsonValue) : String :=
  match jsField v "definition" with
  | some (.str s) => jsTrim s
  | _ => ""

/-- A `{word, definition}` pair of the front-door protocol
(`TranslateWordDefinition` in `src/core/protocol.ts`). -/
structure WordDefinition where
  word : String
  definition : String
  deriving DecidableEq, Repr

/-- The top-level `definition` field of the reply, trimmed
(`parsedDefinitionText` in the source), `""` when absent or not a string. -/
def topLevelDefinitionText (parsed : JsonValue) : String :=
  match jsField parsed "definition" with
  | some (.str s) => jsTrim s
  | _ => ""

/-- `normalizedDefinitions` in the source: entries of the `definitions` array
that are object-like, with trimmed string `word`/`definition` both nonempty. -/
def normalizedDefinitions (parsed : JsonValue) : List (String × String) :=
  let parsedDefinitions :=
    match jsField parsed "definitions" with
    | some (.arr xs) => xs
    | _ => []
  ((parsedDefinitions.filter isJsObjectLike).map
    (fun v => (defEntryWord v, defEntryText v))).filter
    (fun p => p.1 ≠ "" ∧ p.2 ≠ "")

/-- `new Map(entries).get(key)`: with duplicate keys the later entry wins. -/
def mapGetLast (entries : List (String × String)) (key : String) : Option String :=
  entries.reverse.lookup key

/-- `parseStructuredDefinitions` from the realtime translator, starting from
the `JSON.parse` outcome (the earlier trim/code-fence/`JSON.parse` stage only
decides between throwing and producing `parsed`, and is the runtime's JSON
machinery). Returns the `definitions` list of the result object, or the
thrown error message. -/
def parseStructuredDefinitions (parsed : JsonValue) (requestedWord : String) :
    Except String (List WordDefinition) :=
  let parsedDefinitionText := topLevelDefinitionText parsed
  let normalized := normalizedDefinitions parsed
  if normalized = [] ∧ parsedDefinitionText = "" then
    .error "OpenAI structured definitions response missing 'definitions'"
  else
    let fallbackDefinition :=
      if parsedDefinitionText ≠ "" then parsedDefinitionText
      else (mapGetLast normalized requestedWord).getD ""
    .ok (([{ word := requestedWord, definition := fallbackDefinition }] :
      List WordDefinition).filter (fun item => item.definition ≠ ""))

/-- C4 counterexample: the adapter can accept a reply and return the empty
list, refuting "it never returns an empty list". With no top-level
`definition` field and a `definitions` array whose only entry is for a word
other than the requested one, the guard passes (the array is nonempty after
normalization) but the by-word lookup misses, so the final filter leaves `[]`. -/
theorem c4_counterexample :
    ¬ ∀ (parsed : JsonValue) (w : String) (r : List WordDefinition),
        parseStructuredDefinitions parsed w = .ok r → r ≠ [] := by
  intro hclaim
  exact hclaim
    (.obj [("definitions",
      .arr [.obj [("word", .str "other"), ("definition", .str "x")]])])
    "w" [] rfl rfl

/-- C4 (amended): for every accepted reply, the define adapter returns either
a single-element list keyed to the originally requested word with a nonempty
definition — the top-level `definition` field when present, otherwise the
by-word lookup in the normalized `definitions` array — or the empty list
(when no top-level definition exists and the lookup misses); it never returns
a longer list. -/
theorem c4_definitions_single_or_empty (parsed : JsonValue) (w : String)
    (r : List WordDefinition) (h : parseStructuredDefinitions parsed w = .ok r) :
    (r = [] ∨ ∃ d, d ≠ "" ∧ r = [{ word := w, definition := d }]) ∧
    (topLevelDefinitionText parsed ≠ "" →
      r = [{ word := w, definition := topLevelDefinitionText parsed }]) ∧
    (topLevelDefinitionText parsed = "" →
      r = [] ∨ ∃ d, mapGetLast (normalizedDefinitions parsed) w = some d ∧
        r = [{ word := w, definition := d }]) := by
  unfold parseStructuredDefinitions at h
  by_cases hg : normalizedDefinitions parsed = [] ∧ topLevelDefinitionText parsed = ""
  · rw [if_pos hg] at h
    exact absurd h (by simp)
  · rw [if_neg hg] at h
    by_cases ht : topLevelDefinitionText parsed = ""
    · cases hm : mapGetLast (normalizedDefinitions parsed) w with
      | none =>
        have hr : r = [] := by simpa [ht, hm] using h.symm
        exact ⟨Or.inl hr, fun hcon => absurd ht hcon, fun _ => Or.inl hr⟩
      | some d =>
        by_cases hd : d = ""
        · have hr : r = [] := by simpa [ht, hm, hd] using h.symm
          exact ⟨Or.inl hr, fun hcon => absurd ht hcon, fun _ => Or.inl hr⟩
        · have hr : r = [{ word := w, definition := d }] := by
            simpa [ht, hm, hd] using h.symm
          exact ⟨Or.inr ⟨d, hd, hr⟩, fun hcon => absurd ht hcon,
            fun _ => Or.inr ⟨d, rfl, hr⟩⟩
    · have hr : r = [{ word := w, definition := topLevelDefinitionText parsed }] := by
        simpa [ht] using h.symm
      exact ⟨Or.inr ⟨topLevelDefinitionText parsed, ht, hr⟩, fun _ => hr,
        fun hcon => absurd hcon ht⟩

/-- C4 witness: the amended theorem applied to the concrete accepted reply
with a top-level definition field. -/
theorem c4_definitions_single_or_empty_witness :
    (([{ word := "perro", definition := "a dog" }] : List WordDefinition) = [] ∨
      ∃ d, d ≠ "" ∧ ([{ word := "perro", definition := "a dog" }] : List WordDefinition) =
        [{ word := "perro", definition := d }]) ∧
    (topLevelDefinitionText (.obj [("definition", .str "a dog")]) ≠ "" →
      ([{ word := "perro", definition := "a dog" }] : List WordDefinition) =
        [{ word := "perro",
           definition := topLevelDefinitionText (.obj [("definition", .str "a dog")]) }]) ∧
    (topLevelDefinitionText (.obj [("definition", .str "a dog")]) = "" →
      ([{ word := "perro", definition := "a dog" }] : List WordDefinition) = [] ∨
      ∃ d, mapGetLast (normalizedDefinitions (.obj [("definition", .str "a dog")])) "perro" =
          some d ∧
        ([{ word := "perro", definition := "a dog" }] : List WordDefinition) =
          [{ word := "perro", definition := d }]) :=
  c4_definitions_single_or_empty (.obj [("definition", .str "a dog")]) "perro"
    [{ word := "perro", definition := "a dog" }] rfl

/-! ## Codec lemmas -/

theorem readInt16LEPair_eq (lo hi : Nat) :
    readInt16LEPair lo hi =
      if lo % 256 + 256 * (hi % 256) < 32768 then ((lo % 256 + 256 * (hi % 256) : Nat) : Int)
      else ((lo % 256 + 256 * (hi % 256) : Nat) : Int) - 65536 := rfl

theorem readInt16LEPair_range (lo hi : Nat) :
    -32768 ≤ readInt16LEPair lo hi ∧ readInt16LEPair lo hi ≤ 32767 := by
  rw [readInt16LEPair_eq]
  split <;> omega

theorem samplesLE_range {pcm : List Nat} {x : Int} (hx : x ∈ samplesLE pcm) :
    -32768 ≤ x ∧ x ≤ 32767 := by
  induction pcm using samplesLE.induct with
  | case1 lo hi rest ih =>
    rw [samplesLE] at hx
    rcases List.mem_cons.mp hx with h | h
    · exact h ▸ readInt16LEPair_range lo hi
    · exact ih h
  | case2 l h' =>
    rw [samplesLE] at hx
    · exact absurd hx (List.not_mem_nil x)
    · exact h'

theorem samplesLE_writeInt16LE_append (v : Int) (h1 : -32768 ≤ v) (h2 : v ≤ 32767)
    (rest : List Nat) : samplesLE (writeInt16LE v ++ rest) = v :: samplesLE rest := by
  show samplesLE ((v % 65536).toNat % 256 :: (v % 65536).toNat / 256 :: rest) = _
  rw [samplesLE]
  congr 1
  rw [readInt16LEPair_eq]
  split <;> omega

theorem clampSample_range (v : Int) :
    -32768 ≤ clampSample v ∧ clampSample v ≤ 32767 := by
  unfold clampSample
  omega

theorem samplesLE_boostBytes (gain : ℚ) (pcm : List Nat) :
    samplesLE (boostBytes gain pcm) =
      (samplesLE pcm).map (fun s : Int => clampSample (jsRound ((s : ℚ) * gain))) := by
  induction pcm using boostBytes.induct gain with
  | case1 lo hi rest ih =>
    rw [boostBytes, samplesLE, boostSampleBytes]
    rw [samplesLE_writeInt16LE_append _ (clampSample_range _).1 (clampSample_range _).2]
    rw [ih, List.map_cons]
  | case2 l h' =>
    match l, h' with
    | [], _ => rfl
    | [b], _ => rfl
    | a :: b :: t, h' => exact absurd rfl (h' a b t)

theorem boostBytes_length (gain : ℚ) (pcm : List Nat) :
    (boostBytes gain pcm).length = pcm.length := by
  induction pcm using boostBytes.induct gain with
  | case1 lo hi rest ih =>
    rw [boostBytes, boostSampleBytes, writeInt16LE]
    simp only [List.length_append, List.length_cons, List.length_nil, ih]
    omega
  | case2 l h' =>
    match l, h' with
    | [], _ => rfl
    | [b], _ => rfl
    | a :: b :: t, h' => exact absurd rfl (h' a b t)

theorem jsRound_intCast (s : Int) : jsRound (s : ℚ) = s := by
  unfold jsRound
  rw [add_comm, Int.floor_add_int]
  norm_num

theorem jsRound_le_jsRound {p q : ℚ} (h : p ≤ q) : jsRound p ≤ jsRound q :=
  Int.floor_le_floor (by linarith)

/-- Core boost inequality: with gain at least `1`, the clamped rounded scaled
sample is at least as large in absolute value as the 16-bit input sample. -/
theorem natAbs_clampRound_ge (s : Int) (g : ℚ) (hg : 1 ≤ g)
    (h1 : -32768 ≤ s) (h2 : s ≤ 32767) :
    s.natAbs ≤ (clampSample (jsRound ((s : ℚ) * g))).natAbs := by
  rcases le_or_lt 0 s with hs | hs
  · have hcast : (0 : ℚ) ≤ (s : ℚ) := by exact_mod_cast hs
    have hmul : (s : ℚ) ≤ (s : ℚ) * g := by nlinarith
    have hv : s ≤ jsRound ((s : ℚ) * g) := by
      calc s = jsRound (s : ℚ) := (jsRound_intCast s).symm
        _ ≤ jsRound ((s : ℚ) * g) := jsRound_le_jsRound hmul
    unfold clampSample
    omega
  · have hcast : (s : ℚ) < 0 := by exact_mod_cast hs
    have hmul : (s : ℚ) * g ≤ (s : ℚ) := by nlinarith
    have hv : jsRound ((s : ℚ) * g) ≤ s := by
      calc jsRound ((s : ℚ) * g) ≤ jsRound (s : ℚ) := jsRound_le_jsRound hmul
        _ = s := jsRound_intCast s
    unfold clampSample
    omega

theorem wavHeader_length (a b c d : Nat) : (wavHeader a b c d).length = 44 := rfl

theorem encodePcm16ToWav_drop (pcm : List Nat) (a b c : Nat) :
    (encodePcm16ToWav pcm a b c).drop 44 = pcm := by
  unfold encodePcm16ToWav
  rw [← wavHeader_length pcm.length a b c, List.drop_left]

/-- Zeta-reduced equation for `boostPcm16Volume`. -/
theorem boostPcm16Volume_eq (pcm : List Nat) :
    boostPcm16Volume pcm =
      if pcm.length < 2 then pcm
      else if maxAbsSamples pcm = 0 then pcm
      else if max 1 (min maxBoostFactor (targetPeakAmplitude / (maxAbsSamples pcm : ℚ))) = 1
        then pcm
      else boostBytes
        (max 1 (min maxBoostFactor (targetPeakAmplitude / (maxAbsSamples pcm : ℚ)))) pcm := rfl

/-- The boosted buffer: either unchanged (short, silent, or gain exactly `1`)
or rewritten with a gain of at least `1`. -/
theorem boostPcm16Volume_cases (pcm : List Nat) :
    boostPcm16Volume pcm = pcm ∨
      ∃ g : ℚ, 1 ≤ g ∧ boostPcm16Volume pcm = boostBytes g pcm := by
  rw [boostPcm16Volume_eq]
  split
  · exact Or.inl rfl
  · split
    · exact Or.inl rfl
    · split
      · exact Or.inl rfl
      · exact Or.inr ⟨_, le_max_left _ _, rfl⟩

/-- C7: for every non-empty fragment list, the codec output after the 44-byte
WAV header has exactly as many 16-bit samples as the concatenated decoded
input, and pointwise the output sample's absolute value is at least the input
sample's (`List.Forall₂` pairs the sample lists index by index). -/
theorem c7_boost_preserves_count_and_grows (chunks : List String)
    (hne : chunks ≠ []) :
    (samplesLE ((decodeBase64PcmChunksToWavBlob chunks).data.drop 44)).length =
      (samplesLE ((chunks.map base64decode).flatten)).length ∧
    List.Forall₂ (fun s t : Int => s.natAbs ≤ t.natAbs)
      (samplesLE ((chunks.map base64decode).flatten))
      (samplesLE ((decodeBase64PcmChunksToWavBlob chunks).data.drop 44)) := by
  have hlen : chunks.length ≠ 0 := fun h => hne (by simpa using h)
  have hdata : (decodeBase64PcmChunksToWavBlob chunks).data =
      encodePcm16ToWav (boostPcm16Volume ((chunks.map base64decode).flatten))
        24000 1 16 := by
    unfold decodeBase64PcmChunksToWavBlob
    rw [if_neg hlen]
  rw [hdata, encodePcm16ToWav_drop]
  set pcm := (chunks.map base64decode).flatten with hpcm
  rcases boostPcm16Volume_cases pcm with hid | ⟨g, hg, hbo⟩
  · rw [hid]
    exact ⟨rfl, List.forall₂_same.mpr (fun x _ => le_refl x.natAbs)⟩
  · rw [hbo, samplesLE_boostBytes]
    refine ⟨by rw [List.length_map], ?_⟩
    rw [List.forall₂_map_right_iff]
    refine List.forall₂_same.mpr (fun x hx => ?_)
    obtain ⟨hx1, hx2⟩ := samplesLE_range hx
    exact natAbs_clampRound_ge x g hg hx1 hx2

/-- C7 witness: the theorem applied to the concrete fragment list whose single
fragment decodes to the samples 1000 and -1000. -/
theorem c7_boost_preserves_count_and_grows_witness :
    (samplesLE ((decodeBase64PcmChunksToWavBlob ["6AMY/A=="]).data.drop 44)).length =
      (samplesLE (([ "6AMY/A==" ].map base64decode).flatten)).length ∧
    List.Forall₂ (fun s t : Int => s.natAbs ≤ t.natAbs)
      (samplesLE (([ "6AMY/A==" ].map base64decode).flatten))
      (samplesLE ((decodeBase64PcmChunksToWavBlob ["6AMY/A=="]).data.drop 44)) :=
  c7_boost_preserves_count_and_grows ["6AMY/A=="] (by simp)

theorem le_foldl_max (l : List Nat) (a : Nat) :
    a ≤ l.foldl max a ∧ ∀ x ∈ l, x ≤ l.foldl max a := by
  induction l generalizing a with
  | nil => exact ⟨le_refl a, fun x hx => absurd hx (List.not_mem_nil x)⟩
  | cons y t ih =>
    rw [List.foldl_cons]
    refine ⟨le_trans (le_max_left a y) (ih (max a y)).1, fun x hx => ?_⟩
    rcases List.mem_cons.mp hx with h | h
    · subst h
      exact le_trans (le_max_right a x) (ih (max a x)).1
    · exact (ih (max a y)).2 x h

theorem foldl_max_map_comm (G : Nat → Nat) (hmono : ∀ x y, x ≤ y → G x ≤ G y)
    (l : List Nat) (a : Nat) : (l.map G).foldl max (G a) = G (l.foldl max a) := by
  induction l generalizing a with
  | nil => rfl
  | cons y t ih =>
    rw [List.map_cons, List.foldl_cons, List.foldl_cons]
    have hGmax : max (G a) (G y) = G (max a y) := by
      rcases le_total a y with h | h
      · rw [max_eq_right (hmono a y h), max_eq_right h]
      · rw [max_eq_left (hmono y a h), max_eq_left h]
    rw [hGmax, ih]

theorem maxAbsSamples_short {pcm : List Nat} (h : pcm.length < 2) :
    maxAbsSamples pcm = 0 := by
  match pcm, h with
  | [], _ => rfl
  | [b], _ => rfl

/-- Explicit integer form of `Math.round (s * 1.8)`: Euclidean division by 10. -/
theorem jsRound_mul_nine_fifths (s : Int) :
    jsRound ((s : ℚ) * (9 / 5)) = (18 * s + 5) / 10 := by
  unfold jsRound
  have h : (s : ℚ) * (9 / 5) + 1 / 2 = ((18 * s + 5 : Int) : ℚ) / ((10 : Nat) : ℚ) := by
    push_cast
    ring
  rw [h, Rat.floor_intCast_div_natCast]
  norm_num

/-- For samples bounded by 16383 the clamp is vacuous and the rounded boosted
magnitude depends only on the absolute value of the sample. -/
theorem natAbs_clampRound_nine_fifths (s : Int) (hb : s.natAbs ≤ 16383) :
    (clampSample (jsRound ((s : ℚ) * (9 / 5)))).natAbs =
      ((18 * (s.natAbs : Int) + 5) / 10).toNat := by
  rw [jsRound_mul_nine_fifths]
  unfold clampSample
  omega

/-- C3 (amended): the spec's inequality is reversed relative to the code — the
exact-peak formula holds when `inputPeak × 1.8 ≤ 29490` (stated integrally as
`9 * peak ≤ 147450`), where the gain is exactly `1.8`: the output peak equals
`round(inputPeak × 1.8)` (the clamp to ±32767 is vacuous there). In
particular the input samples `[1000, -1000, 500, -500]` produce
`[1800, -1800, 900, -900]`. -/
theorem c3_peak_formula_low_gain :
    (∀ pcm : List Nat, maxAbsSamples pcm ≠ 0 → 9 * maxAbsSamples pcm ≤ 147450 →
      maxAbsSamples (boostPcm16Volume pcm) =
        (clampSample (jsRound ((maxAbsSamples pcm : ℚ) * maxBoostFactor))).toNat) ∧
    boostPcm16Volume [232, 3, 24, 252, 244, 1, 12, 254] =
      [8, 7, 248, 248, 132, 3, 124, 252] := by
  constructor
  · intro pcm h0 hb
    have hm16383 : maxAbsSamples pcm ≤ 16383 := by omega
    have hlen : ¬pcm.length < 2 := fun hl => h0 (maxAbsSamples_short hl)
    have hmpos : (0 : ℚ) < (maxAbsSamples pcm : ℚ) := by
      exact_mod_cast Nat.pos_of_ne_zero h0
    have hmin : min maxBoostFactor (targetPeakAmplitude / (maxAbsSamples pcm : ℚ)) =
        maxBoostFactor := by
      refine min_eq_left ?_
      rw [maxBoostFactor, targetPeakAmplitude, div_le_div_iff₀ (by norm_num) hmpos]
      calc (9 : ℚ) * (maxAbsSamples pcm : ℚ) = ((9 * maxAbsSamples pcm : Nat) : ℚ) := by
            push_cast; ring
        _ ≤ ((147450 : Nat) : ℚ) := by exact_mod_cast hb
        _ ≤ 29490 * 5 := by norm_num
    have hmax : max 1 maxBoostFactor = maxBoostFactor :=
      max_eq_right (by rw [maxBoostFactor]; norm_num)
    have hne1 : maxBoostFactor ≠ 1 := by rw [maxBoostFactor]; norm_num
    rw [boostPcm16Volume_eq, if_neg hlen, if_neg h0, hmin, hmax, if_neg hne1]
    -- both sides reduce to the integer-division form of round(x * 1.8)
    have hG : ∀ x y : Nat, x ≤ y →
        ((18 * (x : Int) + 5) / 10).toNat ≤ ((18 * (y : Int) + 5) / 10).toNat := by
      intro x y h
      omega
    have hsamples : ∀ x ∈ samplesLE pcm, x.natAbs ≤ maxAbsSamples pcm := by
      intro x hx
      exact (le_foldl_max ((samplesLE pcm).map Int.natAbs) 0).2 x.natAbs
        (List.mem_map_of_mem Int.natAbs hx)
    rw [maxAbsSamples, samplesLE_boostBytes, List.map_map]
    have hcongr : (samplesLE pcm).map
        (Int.natAbs ∘ fun s : Int => clampSample (jsRound ((s : ℚ) * maxBoostFactor))) =
        (samplesLE pcm).map
          ((fun x : Nat => ((18 * (x : Int) + 5) / 10).toNat) ∘ Int.natAbs) := by
      refine List.map_congr_left (fun x hx => ?_)
      show (clampSample (jsRound ((x : ℚ) * maxBoostFactor))).natAbs = _
      rw [maxBoostFactor]
      exact natAbs_clampRound_nine_fifths x (le_trans (hsamples x hx) hm16383)
    rw [hcongr, ← List.map_map]
    have hfold := foldl_max_map_comm (fun x : Nat => ((18 * (x : Int) + 5) / 10).toNat) hG
      ((samplesLE pcm).map Int.natAbs) 0
    rw [show ((18 * ((0 : Nat) : Int) + 5) / 10).toNat = 0 from by decide] at hfold
    rw [hfold, ← maxAbsSamples]
    have hcast : ((maxAbsSamples pcm : Nat) : ℚ) = (((maxAbsSamples pcm : Nat) : Int) : ℚ) := by
      push_cast
      ring
    rw [hcast, maxBoostFactor, jsRound_mul_nine_fifths]
    unfold clampSample
    omega
  · have h1000 : clampSample (jsRound (((1000 : Int) : ℚ) * (9 / 5))) = 1800 := by
      rw [jsRound_mul_nine_fifths]
      decide
    have hm1000 : clampSample (jsRound (((-1000 : Int) : ℚ) * (9 / 5))) = -1800 := by
      rw [jsRound_mul_nine_fifths]
      decide
    have h500 : clampSample (jsRound (((500 : Int) : ℚ) * (9 / 5))) = 900 := by
      rw [jsRound_mul_nine_fifths]
      decide
    have hm500 : clampSample (jsRound (((-500 : Int) : ℚ) * (9 / 5))) = -900 := by
      rw [jsRound_mul_nine_fifths]
      decide
    rw [boostPcm16Volume_eq]
    rw [if_neg (by decide : ¬([232, 3, 24, 252, 244, 1, 12, 254] : List Nat).length < 2)]
    rw [show maxAbsSamples [232, 3, 24, 252, 244, 1, 12, 254] = 1000 from by decide]
    rw [if_neg (by decide : ¬(1000 : Nat) = 0)]
    have hgain : max 1 (min maxBoostFactor (targetPeakAmplitude / ((1000 : Nat) : ℚ))) =
        9 / 5 := by
      rw [maxBoostFactor, targetPeakAmplitude]
      norm_num
    rw [hgain, if_neg (by norm_num)]
    simp only [boostBytes, boostSampleBytes]
    rw [show readInt16LEPair 232 3 = 1000 from by decide,
      show readInt16LEPair 24 252 = -1000 from by decide,
      show readInt16LEPair 244 1 = 500 from by decide,
      show readInt16LEPair 12 254 = -500 from by decide]
    rw [h1000, hm1000, h500, hm500]
    decide

/-- C3 witness: the general formula applied to the `[1000, -1000, 500, -500]`
buffer (peak 1000, and 9 × 1000 ≤ 147450). -/
theorem c3_peak_formula_low_gain_witness :
    maxAbsSamples (boostPcm16Volume [232, 3, 24, 252, 244, 1, 12, 254]) =
      (clampSample (jsRound
        ((maxAbsSamples [232, 3, 24, 252, 244, 1, 12, 254] : ℚ) * maxBoostFactor))).toNat :=
  c3_peak_formula_low_gain.1 [232, 3, 24, 252, 244, 1, 12, 254] (by decide) (by decide)

/-- C3 counterexample: the claim as stated (peak formula whenever
`inputPeak × 1.8 ≥ 29490`) fails on the loud buffer with samples
`[32000, -32000]`: its peak satisfies the claimed condition, the claimed
output peak is `32767` (the clamp), but the code leaves the buffer unchanged
(the gain floors at `1`), so the actual output peak is `32000`. -/
theorem c3_counterexample :
    (29490 : ℚ) ≤ (maxAbsSamples [0, 125, 0, 131] : ℚ) * maxBoostFactor ∧
    maxAbsSamples (boostPcm16Volume [0, 125, 0, 131]) = 32000 ∧
    (clampSample (jsRound ((maxAbsSamples [0, 125, 0, 131] : ℚ) * maxBoostFactor))).toNat =
      32767 ∧
    (32000 : Nat) ≠ 32767 := by
  have hmax : maxAbsSamples [0, 125, 0, 131] = 32000 := by decide
  refine ⟨?_, ?_, ?_, by decide⟩
  · rw [hmax, maxBoostFactor]
    norm_num
  · rw [boostPcm16Volume_eq]
    rw [if_neg (by decide : ¬([0, 125, 0, 131] : List Nat).length < 2)]
    rw [hmax, if_neg (by decide : ¬(32000 : Nat) = 0)]
    have hgain : max 1 (min maxBoostFactor (targetPeakAmplitude / ((32000 : Nat) : ℚ))) =
        1 := by
      rw [maxBoostFactor, targetPeakAmplitude]
      norm_num
    rw [hgain, if_pos rfl, hmax]
  · rw [hmax]
    have hcast : ((32000 : Nat) : ℚ) = (((32000 : Int)) : ℚ) := by norm_num
    rw [hcast, maxBoostFactor, jsRound_mul_nine_fifths]
    decide

/-! ## Realtime multiplexer (`OpenAiTranslator` in the realtime translator)

The multiplexer owns a queue of pending requests, a single active-request
slot, and one logical upstream connection. Its handlers are embedded as pure
state transformers; the surrounding event loop (socket callbacks, timers,
caller enqueues) is the environment and is modelled as a list of `MuxStep`
inputs. `Option OpenAiRealtimeServerEvent` is the outcome of
`parseRealtimeEvent` (`JSON.parse` wrapped in try/catch): `none` is a raw
frame that is not valid JSON. The connect oracle decides whether the n-th
connect attempt of `ensureConnected` succeeds (the network is environment).
Promise settlement is observable only through the resolve/reject callbacks,
recorded as trace events tagged with ghost request ids that correspond to
enqueue order. -/

/-- A requested output modality (`"text" | "audio"`). -/
inductive Modality where
  | text
  | audio
  deriving DecidableEq, Repr

/-- `QueuedRequest`: an operation description awaiting dispatch. The result
callbacks are represented by which of them is populated; `id` is the ghost
sequence number assigned at enqueue time. -/
structure QueuedRequest where
  id : Nat
  prompt : String
  instructions : String
  modalities : List Modality
  audioVoice : Option String
  maxOutputTokens : Option Nat
  hasResolveText : Bool
  hasResolveAudio : Bool
  deriving DecidableEq, Repr

/-- `ActiveRequest`: the queued request plus in-flight runtime state. The
armed `setTimeout` handle is a ghost timer id (`startedAt` is only logged). -/
structure ActiveRequest extends QueuedRequest where
  timerId : Nat
  streamedText : String
  streamedAudioChunks : List String
  receivedDoneEvent : Bool
  deriving DecidableEq, Repr

/-- Observable outputs: enqueue, slot activation, the upstream
`response.create` send, and the three settle callbacks. -/
inductive OutEvent where
  | enqueued (id : Nat)
  | activated (id : Nat)
  | sent (id : Nat)
  | resolvedText (id : Nat) (text : String)
  | resolvedAudio (id : Nat) (bytes : List Nat)
  | rejected (id : Nat) (message : String)
  deriving DecidableEq, Repr

/-- The multiplexer's mutable state (`ws`/`isWsOpen` collapsed to `wsOpen`,
plus the queue, slot, pending `setTimeout` handles and ghost counters).
`closeRequested` records a `ws.close()` issued by the timeout handler whose
close event has not yet been delivered. -/
structure MuxState where
  wsOpen : Bool
  closeRequested : Bool
  activeRequest : Option ActiveRequest
  queuedRequests : List QueuedRequest
  pendingTimers : List Nat
  nextId : Nat
  nextTimerId : Nat
  connAttempts : Nat
  trace : List OutEvent
  deriving DecidableEq, Repr

/-- `error.message` shape of a provider event. -/
structure RtErrorInfo where
  message : Option String
  deriving DecidableEq, Repr

/-- `status_details.error` shape. -/
structure RtStatusDetailsError where
  message : Option String
  deriving DecidableEq, Repr

/-- `status_details` shape. -/
structure RtStatusDetails where
  error : Option RtStatusDetailsError
  deriving DecidableEq, Repr

/-- `usage` token counts. -/
structure RtUsage where
  input_tokens : Option Int
  output_tokens : Option Int
  deriving DecidableEq, Repr

/-- One entry of `response.output[].content[]`. -/
structure RtContentPart where
  type : Option String
  text : Option String
  deriving DecidableEq, Repr

/-- One entry of `response.output[]`. -/
structure RtOutputItem where
  content : Option (List RtContentPart)
  deriving DecidableEq, Repr

/-- The `response` payload of a terminal event. -/
structure RtResponseInfo where
  status : Option String
  status_details : Option RtStatusDetails
  usage : Option RtUsage
  output : Option (List RtOutputItem)
  deriving DecidableEq, Repr

/-- `OpenAiRealtimeServerEvent`: the decoded shape of a provider frame; every
field is optional, exactly as in the source type. -/
structure OpenAiRealtimeServerEvent where
  type : Option String
  delta : Option String
  text : Option String
  error : Option RtErrorInfo
  response : Option RtResponseInfo
  deriving DecidableEq, Repr

/-- JavaScript `field || fallback` on an optional string: absent and empty
strings are both falsy. -/
def jsOrElse (o : Option String) (fallback : String) : String :=
  match o with
  | some s => if s = "" then fallback else s
  | none => fallback

/-- Fixed request timeout used in the timeout error message (`timeoutMs`). -/
def timeoutMsgText : String := "OpenAI realtime request timed out after 5000ms"

/-- `ConnectError` message of a failed connect attempt. -/
def connectFailedMsg : String := "OpenAI realtime websocket connection failed"

/-- Runtime websocket error message. -/
def wsErrorMsg : String := "OpenAI realtime websocket error"

/-- `ConnectionClosedBeforeCompletion` message. -/
def closedBeforeCompletionMsg : String :=
  "OpenAI realtime websocket closed before completion"

/-- Empty audio output rejection message. -/
def emptyAudioMsg : String := "OpenAI realtime returned empty audio output"

/-- Empty text output rejection message. -/
def emptyTextMsg : String := "OpenAI realtime returned empty text output"

/-- Fallback of `toError` / explicit error events. -/
def genericFailMsg : String := "OpenAI realtime request failed"

/-- The fresh `ActiveRequest` built by `processNextRequest` when it pops the
queue head and arms a timeout. -/
def mkActive (req : QueuedRequest) (timerId : Nat) : ActiveRequest :=
  { toQueuedRequest := req
    timerId := timerId
    streamedText := ""
    streamedAudioChunks := []
    receivedDoneEvent := false }

/-- The dispatch loop of `processNextRequest`, structurally recursive over
the queue. It is only entered with an empty slot and with the state's queue
equal to the list argument; both facts are maintained by the recursive call,
so this is the same recursion the source performs on the mutable queue. -/
def processQueue (oracle : Nat → Bool) : List QueuedRequest → MuxState → MuxState
  | [], s => s
  | next :: rest, s =>
    let timer := s.nextTimerId
    let s1 : MuxState :=
      { s with
        activeRequest := some (mkActive next timer)
        queuedRequests := rest
        pendingTimers := s.pendingTimers ++ [timer]
        nextTimerId := timer + 1
        trace := s.trace ++ [.activated next.id] }
    if s1.wsOpen then
      { s1 with trace := s1.trace ++ [.sent next.id] }
    else if oracle s1.connAttempts then
      { s1 with
        wsOpen := true
        connAttempts := s1.connAttempts + 1
        trace := s1.trace ++ [.sent next.id] }
    else
      processQueue oracle rest
        { s1 with
          activeRequest := none
          connAttempts := s1.connAttempts + 1
          pendingTimers := s1.pendingTimers.filter (fun h => h ≠ timer)
          trace := s1.trace ++ [.rejected next.id connectFailedMsg] }

/-- `processNextRequest`: no-op when a request is active or the queue is
empty; otherwise pop the head, arm a fresh timeout, and dispatch. Dispatch
sends `response.create` when the socket is open or a connect attempt (decided
by the oracle) succeeds; when the connect throws, the active request is
settled as failed (`settleActiveError` inlined: slot cleared, timeout
cleared, reject recorded) and the next queued item is tried recursively. -/
def processNextRequest (oracle : Nat → Bool) (s : MuxState) : MuxState :=
  if s.activeRequest.isSome then s
  else processQueue oracle s.queuedRequests s

/-- `settleActiveError`: no-op when the slot is empty; otherwise clear the
slot, clear the timeout, invoke the reject callback, and advance the queue. -/
def settleActiveError (oracle : Nat → Bool) (message : String) (s : MuxState) : MuxState :=
  match s.activeRequest with
  | none => s
  | some currentRequest =>
    processNextRequest oracle
      { s with
        activeRequest := none
        pendingTimers := s.pendingTimers.filter (fun h => h ≠ currentRequest.timerId)
        trace := s.trace ++ [.rejected currentRequest.id message] }

/-- `settleActiveSuccess`: clear slot and timeout, then for audio requests
encode the accumulated fragments (rejecting a zero-size blob), otherwise
resolve the trimmed accumulated text (rejecting when empty); always advance
the queue afterwards. -/
def settleActiveSuccess (oracle : Nat → Bool) (s : MuxState) : MuxState :=
  match s.activeRequest with
  | none => s
  | some currentRequest =>
    let base : MuxState :=
      { s with
        activeRequest := none
        pendingTimers := s.pendingTimers.filter (fun h => h ≠ currentRequest.timerId) }
    if currentRequest.hasResolveAudio then
      let audioBlob := decodeBase64PcmChunksToWavBlob currentRequest.streamedAudioChunks
      if audioBlob.size = 0 then
        processNextRequest oracle
          { base with trace := base.trace ++ [.rejected currentRequest.id emptyAudioMsg] }
      else
        processNextRequest oracle
          { base with trace := base.trace ++ [.resolvedAudio currentRequest.id audioBlob.data] }
    else if jsTrim currentRequest.streamedText = "" then
      processNextRequest oracle
        { base with trace := base.trace ++ [.rejected currentRequest.id emptyTextMsg] }
    else if currentRequest.hasResolveText then
      processNextRequest oracle
        { base with trace := base.trace ++
            [.resolvedText currentRequest.id (jsTrim currentRequest.streamedText)] }
    else
      processNextRequest oracle base

/-- `getResponseTextFromDoneEvent`: join the string content parts of the
inline output, trimmed (optional chaining yields `""` when absent). -/
def getResponseTextFromDoneEvent (ev : OpenAiRealtimeServerEvent) : String :=
  jsTrim (String.join
    ((((ev.response.bind RtResponseInfo.output).getD []).flatMap
      (fun item => item.content.getD [])).filterMap RtContentPart.text))

/-- `onRealtimeMessage`: the response accumulator. Unparseable frames and
frames with no active request are dropped; then the event type dispatches in
source order: explicit error, text delta, text done (only onto an empty
buffer), the two audio delta spellings, and the `response.done` terminal
event with its status inspection. -/
def onRealtimeMessage (oracle : Nat → Bool) (parsedEvent : Option OpenAiRealtimeServerEvent)
    (s : MuxState) : MuxState :=
  match parsedEvent, s.activeRequest with
  | none, _ => s
  | some _, none => s
  | some ev, some activeReq =>
    if ev.type = some "error" then
      settleActiveError oracle (jsOrElse (ev.error.bind RtErrorInfo.message) genericFailMsg) s
    else if ev.type = some "response.output_text.delta" ∧ ev.delta.isSome then
      { s with activeRequest := some ({ activeReq with
          streamedText := activeReq.streamedText ++ ev.delta.getD "" }) }
    else if ev.type = some "response.output_text.done" ∧ ev.text.isSome ∧
        jsTrim activeReq.streamedText = "" then
      { s with activeRequest := some ({ activeReq with streamedText := ev.text.getD "" }) }
    else if ev.type = some "response.audio.delta" ∧ ev.delta.isSome then
      { s with activeRequest := some ({ activeReq with
          streamedAudioChunks := activeReq.streamedAudioChunks ++ [ev.delta.getD ""] }) }
    else if ev.type = some "response.output_audio.delta" ∧ ev.delta.isSome then
      { s with activeRequest := some ({ activeReq with
          streamedAudioChunks := activeReq.streamedAudioChunks ++ [ev.delta.getD ""] }) }
    else if ev.type ≠ some "response.done" then s
    else
      let doneReq := { activeReq with receivedDoneEvent := true }
      let status := ev.response.bind RtResponseInfo.status
      let failedStatus : Bool :=
        match status with
        | some st => decide (st ≠ "") && decide (st ≠ "completed")
        | none => false
      let isAudioRequest := doneReq.modalities.contains Modality.audio
      let hasAudioOutput : Bool := decide (0 < doneReq.streamedAudioChunks.length)
      let isAcceptableIncompleteAudioResponse : Bool :=
        decide (status = some "incomplete") && isAudioRequest && hasAudioOutput
      let s' := { s with activeRequest := some doneReq }
      if failedStatus && !isAcceptableIncompleteAudioResponse then
        settleActiveError oracle
          (jsOrElse
            ((ev.response.bind RtResponseInfo.status_details).bind
              (fun sd => sd.error.bind RtStatusDetailsError.message))
            ("OpenAI response ended with status '" ++ status.getD "undefined" ++ "'"))
          s'
      else
        let doneText := getResponseTextFromDoneEvent ev
        if jsTrim doneReq.streamedText = "" ∧ doneText ≠ "" then
          settleActiveSuccess oracle
            { s' with activeRequest := some ({ doneReq with streamedText := doneText }) }
        else
          settleActiveSuccess oracle s'

/-- The armed timeout firing: a cancelled handle is a no-op (`clearTimeout`
semantics); a live one settles the active request as timed out, then closes
the open socket (`closeRequested` marks the close whose close event the
environment delivers later). -/
def onTimerFires (oracle : Nat → Bool) (h : Nat) (s : MuxState) : MuxState :=
  if s.pendingTimers.contains h then
    let s1 := settleActiveError oracle timeoutMsgText
      { s with pendingTimers := s.pendingTimers.filter (fun t => t ≠ h) }
    if s1.wsOpen then { s1 with closeRequested := true } else s1
  else s

/-- Runtime websocket error listener: settle the active request as failed. -/
def onWsError (oracle : Nat → Bool) (s : MuxState) : MuxState :=
  settleActiveError oracle wsErrorMsg s

/-- Close listener: note whether the active request is still awaiting its
terminal event, reset connection state, then synthesize the
closed-before-completion failure when needed. -/
def onWsClose (oracle : Nat → Bool) (s : MuxState) : MuxState :=
  let closedBeforeCompletion : Bool :=
    match s.activeRequest with
    | some a => !a.receivedDoneEvent
    | none => false
  let s0 := { s with wsOpen := false, closeRequested := false }
  if closedBeforeCompletion then
    settleActiveError oracle closedBeforeCompletionMsg s0
  else s0

/-- `runOpenAiRealtimeRequest`: enqueue a text-modality request (translate or
define) with its resolve-text callback and kick the queue. -/
def runOpenAiRealtimeRequest (oracle : Nat → Bool) (prompt instructions : String)
    (s : MuxState) : MuxState :=
  processNextRequest oracle
    { s with
      queuedRequests := s.queuedRequests ++
        [{ id := s.nextId, prompt := prompt, instructions := instructions,
           modalities := [Modality.text], audioVoice := none,
           maxOutputTokens := some 1024,
           hasResolveText := true, hasResolveAudio := false }]
      nextId := s.nextId + 1
      trace := s.trace ++ [.enqueued s.nextId] }

/-- `buildAudioPrompt` from the source. -/
def buildAudioPrompt (text targetLanguage : String) : String :=
  "Speak the exact text below in " ++ targetLanguage ++ ". Do not add or remove words.\n" ++
  "-------------------------- text below this line -----------------------------\n\n" ++
  text

/-- `runOpenAiRealtimeAudioRequest`: enqueue an audio+text request with its
resolve-audio callback and kick the queue. -/
def runOpenAiRealtimeAudioRequest (oracle : Nat → Bool) (text targetLanguage : String)
    (s : MuxState) : MuxState :=
  processNextRequest oracle
    { s with
      queuedRequests := s.queuedRequests ++
        [{ id := s.nextId, prompt := buildAudioPrompt text targetLanguage,
           instructions := "You are a text-to-speech engine. Speak the provided text exactly, with natural pacing.",
           modalities := [Modality.audio, Modality.text],
           audioVoice := some "sage",
           maxOutputTokens := some 256,
           hasResolveText := false, hasResolveAudio := true }]
      nextId := s.nextId + 1
      trace := s.trace ++ [.enqueued s.nextId] }

/-- One environment input: a caller enqueue, a raw upstream frame (given by
its parse outcome), a timer expiry, or a socket error/close event. -/
inductive MuxStep where
  | enqueueText (prompt instructions : String)
  | enqueueAudio (text targetLanguage : String)
  | message (parsed : Option OpenAiRealtimeServerEvent)
  | timerFires (h : Nat)
  | wsError
  | wsClose

/-- Apply one environment input to the state. -/
def applyStep (oracle : Nat → Bool) (st : MuxStep) (s : MuxState) : MuxState :=
  match st with
  | .enqueueText p i => runOpenAiRealtimeRequest oracle p i s
  | .enqueueAudio t l => runOpenAiRealtimeAudioRequest oracle t l s
  | .message ev => onRealtimeMessage oracle ev s
  | .timerFires h => onTimerFires oracle h s
  | .wsError => onWsError oracle s
  | .wsClose => onWsClose oracle s

/-- The translator's initial state (fresh `OpenAiTranslator()` closure). -/
def initState : MuxState :=
  { wsOpen := false, closeRequested := false, activeRequest := none,
    queuedRequests := [], pendingTimers := [], nextId := 0, nextTimerId := 0,
    connAttempts := 0, trace := [] }

/-- Run a whole sequence of environment inputs from the initial state. -/
def run (oracle : Nat → Bool) (steps : List MuxStep) : MuxState :=
  steps.foldl (fun s st => applyStep oracle st s) initState

/-! ## Trace analysis -/

/-- The request id a settle event (resolve or reject) refers to. -/
def settleId : OutEvent → Option Nat
  | .resolvedText n _ => some n
  | .resolvedAudio n _ => some n
  | .rejected n _ => some n
  | _ => none

/-- The request id of an activation event. -/
def actId : OutEvent → Option Nat
  | .activated n => some n
  | _ => none

/-- The request id of an upstream `response.create` send event. -/
def sentId : OutEvent → Option Nat
  | .sent n => some n
  | _ => none

/-- Ids of the requests settled in a trace, in settle order. -/
def settleIds (l : List OutEvent) : List Nat := l.filterMap settleId

/-- Ids of the requests activated in a trace, in activation order. -/
def actIds (l : List OutEvent) : List Nat := l.filterMap actId

/-- Ids of the requests dispatched upstream, in send order. -/
def sentIds (l : List OutEvent) : List Nat := l.filterMap sentId

/-- A well-shaped observation: the settled ids are exactly `0..d-1`, the
activated ids exactly `0..e-1` with `e ≤ d+1` (so at most one activated
request is unsettled), and an upstream send for request `n` implies all
earlier requests are already settled. -/
def TraceOk (l : List OutEvent) : Prop :=
  (∃ d e, settleIds l = List.range d ∧ actIds l = List.range e ∧ (e = d ∨ e = d + 1)) ∧
  ∀ n ∈ sentIds l, ∀ m, m < n → m ∈ settleIds l

/-- `TraceOk` at every prefix: the shape holds at every instant of the run,
not only at the end. -/
def PrefixesOk (l : List OutEvent) : Prop := ∀ p, TraceOk (l.take p)

theorem settleIds_append (l : List OutEvent) (e : OutEvent) :
    settleIds (l ++ [e]) = settleIds l ++ (settleId e).toList := by
  simp only [settleIds, List.filterMap_append]
  cases h : settleId e <;> simp [List.filterMap_cons, h]

theorem actIds_append (l : List OutEvent) (e : OutEvent) :
    actIds (l ++ [e]) = actIds l ++ (actId e).toList := by
  simp only [actIds, List.filterMap_append]
  cases h : actId e <;> simp [List.filterMap_cons, h]

theorem sentIds_append (l : List OutEvent) (e : OutEvent) :
    sentIds (l ++ [e]) = sentIds l ++ (sentId e).toList := by
  simp only [sentIds, List.filterMap_append]
  cases h : sentId e <;> simp [List.filterMap_cons, h]

theorem prefixesOk_append (l : List OutEvent) (e : OutEvent)
    (h1 : PrefixesOk l) (h2 : TraceOk (l ++ [e])) : PrefixesOk (l ++ [e]) := by
  intro p
  rw [List.take_append_eq_append_take]
  rcases le_or_lt p l.length with hp | hp
  · have hp0 : p - l.length = 0 := by omega
    rw [hp0, List.take_zero, List.append_nil]
    exact h1 p
  · have h3 : l.take p = l := List.take_of_length_le (by omega)
    have h4 : [e].take (p - l.length) = [e] := List.take_of_length_le (by simp; omega)
    rw [h3, h4]
    exact h2

/-! ### Unfolding lemmas for `processNextRequest` -/

theorem processNextRequest_active (oracle : Nat → Bool) (s : MuxState)
    (h : s.activeRequest.isSome) : processNextRequest oracle s = s := by
  unfold processNextRequest
  rw [if_pos h]

theorem processNextRequest_empty (oracle : Nat → Bool) (s : MuxState)
    (h : s.queuedRequests = []) : processNextRequest oracle s = s := by
  unfold processNextRequest
  split
  · rfl
  · rw [h]
    rfl

theorem processNextRequest_wsOpen (oracle : Nat → Bool) (s : MuxState)
    (next : QueuedRequest) (rest : List QueuedRequest)
    (hA : s.activeRequest = none) (hq : s.queuedRequests = next :: rest)
    (hws : s.wsOpen = true) :
    processNextRequest oracle s =
      { s with
        activeRequest := some (mkActive next s.nextTimerId)
        queuedRequests := rest
        pendingTimers := s.pendingTimers ++ [s.nextTimerId]
        nextTimerId := s.nextTimerId + 1
        trace := (s.trace ++ [.activated next.id]) ++ [.sent next.id] } := by
  unfold processNextRequest
  rw [if_neg (by simp [hA]), hq, processQueue]
  dsimp only
  rw [if_pos hws]

theorem processNextRequest_connect_ok (oracle : Nat → Bool) (s : MuxState)
    (next : QueuedRequest) (rest : List QueuedRequest)
    (hA : s.activeRequest = none) (hq : s.queuedRequests = next :: rest)
    (hws : s.wsOpen = false) (hor : oracle s.connAttempts = true) :
    processNextRequest oracle s =
      { s with
        wsOpen := true
        activeRequest := some (mkActive next s.nextTimerId)
        queuedRequests := rest
        pendingTimers := s.pendingTimers ++ [s.nextTimerId]
        nextTimerId := s.nextTimerId + 1
        connAttempts := s.connAttempts + 1
        trace := (s.trace ++ [.activated next.id]) ++ [.sent next.id] } := by
  unfold processNextRequest
  rw [if_neg (by simp [hA]), hq, processQueue]
  dsimp only
  rw [if_neg (by simp [hws]), if_pos hor]

theorem processNextRequest_connect_fail (oracle : Nat → Bool) (s : MuxState)
    (next : QueuedRequest) (rest : List QueuedRequest)
    (hA : s.activeRequest = none) (hq : s.queuedRequests = next :: rest)
    (hws : s.wsOpen = false) (hor : oracle s.connAttempts = false) :
    processNextRequest oracle s =
      processNextRequest oracle
        { s with
          activeRequest := none
          queuedRequests := rest
          pendingTimers := (s.pendingTimers ++ [s.nextTimerId]).filter
            (fun h => h ≠ s.nextTimerId)
          nextTimerId := s.nextTimerId + 1
          connAttempts := s.connAttempts + 1
          trace := (s.trace ++ [.activated next.id]) ++ [.rejected next.id connectFailedMsg] } := by
  conv =>
    lhs
    rw [processNextRequest]
  rw [if_neg (by simp [hA]), hq, processQueue]
  dsimp only
  rw [if_neg (by simp [hws]), if_neg (by simp [hor])]
  show _ = processNextRequest oracle _
  unfold processNextRequest
  rw [if_neg (by simp)]

/-! ### The multiplexer invariant -/

/-- Every request constructed by the public entry points populates a result
callback (text requests set `resolveText`, audio requests `resolveAudio`). -/
def ReqOk (q : QueuedRequest) : Prop :=
  q.hasResolveAudio = true ∨ q.hasResolveText = true

/-- Shape of a state with an empty slot after `d` settled requests: queued
ids continue consecutively from `d`. -/
def NoneShape (s : MuxState) (d : Nat) : Prop :=
  s.activeRequest = none ∧
  settleIds s.trace = List.range d ∧
  actIds s.trace = List.range d ∧
  s.queuedRequests.map QueuedRequest.id = List.range' d s.queuedRequests.length ∧
  s.nextId = d + s.queuedRequests.length

/-- Shape of a state whose slot holds request `d` (every earlier request is
settled, every later one still queued in order). -/
def SomeShape (s : MuxState) (a : ActiveRequest) (d : Nat) : Prop :=
  s.activeRequest = some a ∧ a.id = d ∧
  settleIds s.trace = List.range d ∧
  actIds s.trace = List.range (d + 1) ∧
  s.queuedRequests.map QueuedRequest.id = List.range' (d + 1) s.queuedRequests.length ∧
  s.nextId = (d + 1) + s.queuedRequests.length

/-- Timer bookkeeping: exactly the active request's armed timeout is pending
(settling always clears it), and its ghost handle is below the fresh counter. -/
def TimerShape (s : MuxState) : Prop :=
  match s.activeRequest with
  | some a => s.pendingTimers = [a.timerId] ∧ a.timerId < s.nextTimerId
  | none => s.pendingTimers = []

/-- The reachable-state invariant of the multiplexer. -/
def Inv (s : MuxState) : Prop :=
  PrefixesOk s.trace ∧
  ((∃ d, NoneShape s d) ∨ (∃ a d, SomeShape s a d)) ∧
  TimerShape s ∧
  (∀ q ∈ s.queuedRequests, ReqOk q) ∧
  (∀ a, s.activeRequest = some a → ReqOk a.toQueuedRequest)

theorem traceOk_of_prefixesOk {l : List OutEvent} (h : PrefixesOk l) : TraceOk l := by
  have := h l.length
  rwa [List.take_length] at this

/-- The workhorse: from a well-shaped slot-free state, `processNextRequest`
reestablishes the invariant; any newly active request is a later one, with a
fresh timer; and the trace only grows. -/
theorem processNext_spec (oracle : Nat → Bool) :
    ∀ (n : Nat) (s : MuxState), s.queuedRequests.length = n → ∀ d : Nat,
      PrefixesOk s.trace → NoneShape s d → s.pendingTimers = [] →
      (∀ q ∈ s.queuedRequests, ReqOk q) →
      Inv (processNextRequest oracle s) ∧
      (∀ a', (processNextRequest oracle s).activeRequest = some a' →
        d ≤ a'.id ∧ s.nextTimerId ≤ a'.timerId) ∧
      (∃ tail, (processNextRequest oracle s).trace = s.trace ++ tail) := by
  intro n
  induction n using Nat.strong_induction_on with
  | _ n ih =>
    intro s hn d hPref hNone hTimers hReqs
    obtain ⟨hA, hSettle, hAct, hQ, hNext⟩ := hNone
    cases hq : s.queuedRequests with
    | nil =>
      rw [processNextRequest_empty oracle s hq]
      refine ⟨⟨hPref, Or.inl ⟨d, hA, hSettle, hAct, hQ, hNext⟩, ?_, hReqs, ?_⟩, ?_, [], by simp⟩
      · unfold TimerShape
        rw [hA]
        exact hTimers
      · intro a ha
        rw [hA] at ha
        exact absurd ha (by simp)
      · intro a' ha'
        rw [hA] at ha'
        exact absurd ha' (by simp)
    | cons next rest =>
      have hqlen : s.queuedRequests.length = rest.length + 1 := by rw [hq]; rfl
      have hQ' : next.id :: rest.map QueuedRequest.id =
          d :: List.range' (d + 1) rest.length := by
        have hcopy := hQ
        rw [hq] at hcopy
        simpa [List.range'_succ, hqlen] using hcopy
      have hnid : next.id = d := ((List.cons.injEq _ _ _ _).mp hQ').1
      have hrest : rest.map QueuedRequest.id = List.range' (d + 1) rest.length :=
        ((List.cons.injEq _ _ _ _).mp hQ').2
      have hreqNext : ReqOk next := hReqs next (by rw [hq]; exact List.mem_cons_self next rest)
      have hreqRest : ∀ q ∈ rest, ReqOk q :=
        fun q hqm => hReqs q (by rw [hq]; exact List.mem_cons_of_mem next hqm)
      -- the trace after the activation event
      have hset1 : settleIds (s.trace ++ [.activated next.id]) = List.range d := by
        rw [settleIds_append, hSettle]
        simp [settleId]
      have hact1 : actIds (s.trace ++ [.activated next.id]) = List.range (d + 1) := by
        rw [actIds_append, hAct, hnid]
        simp [actId, List.range_succ]
      have hsent1 : sentIds (s.trace ++ [.activated next.id]) = sentIds s.trace := by
        rw [sentIds_append]
        simp [sentId]
      have hTr : TraceOk s.trace := traceOk_of_prefixesOk hPref
      have hTr1 : TraceOk (s.trace ++ [.activated next.id]) := by
        refine ⟨⟨d, d + 1, hset1, hact1, Or.inr rfl⟩, ?_⟩
        rw [hsent1, hset1, ← hSettle]
        exact hTr.2
      have hP1 : PrefixesOk (s.trace ++ [.activated next.id]) :=
        prefixesOk_append s.trace _ hPref hTr1
      -- the trace after a successful send
      have hset2 : settleIds ((s.trace ++ [.activated next.id]) ++ [.sent next.id]) =
          List.range d := by
        rw [settleIds_append, hset1]
        simp [settleId]
      have hact2 : actIds ((s.trace ++ [.activated next.id]) ++ [.sent next.id]) =
          List.range (d + 1) := by
        rw [actIds_append, hact1]
        simp [actId]
      have hTr2 : TraceOk ((s.trace ++ [.activated next.id]) ++ [.sent next.id]) := by
        refine ⟨⟨d, d + 1, hset2, hact2, Or.inr rfl⟩, ?_⟩
        rw [sentIds_append, hsent1, hset2]
        intro k hk m hm
        rcases List.mem_append.mp hk with hk | hk
        · rw [← hSettle]
          exact hTr.2 k hk m hm
        · have hkd : k = next.id := by simpa [sentId] using hk
          rw [hkd, hnid] at hm
          exact List.mem_range.mpr hm
      have hP2 : PrefixesOk ((s.trace ++ [.activated next.id]) ++ [.sent next.id]) :=
        prefixesOk_append _ _ hP1 hTr2
      -- the trace after a failed dispatch
      have hset3 : settleIds ((s.trace ++ [.activated next.id]) ++
          [.rejected next.id connectFailedMsg]) = List.range (d + 1) := by
        rw [settleIds_append, hset1, hnid]
        simp [settleId, List.range_succ]
      have hact3 : actIds ((s.trace ++ [.activated next.id]) ++
          [.rejected next.id connectFailedMsg]) = List.range (d + 1) := by
        rw [actIds_append, hact1]
        simp [actId]
      have hTr3 : TraceOk ((s.trace ++ [.activated next.id]) ++
          [.rejected next.id connectFailedMsg]) := by
        refine ⟨⟨d + 1, d + 1, hset3, hact3, Or.inl rfl⟩, ?_⟩
        rw [sentIds_append, hsent1, hset3]
        intro k hk m hm
        rcases List.mem_append.mp hk with hk | hk
        · have := hTr.2 k hk m hm
          rw [hSettle] at this
          exact List.mem_range.mpr (Nat.lt_succ_of_lt (List.mem_range.mp this))
        · simp [sentId] at hk
      have hP3 : PrefixesOk ((s.trace ++ [.activated next.id]) ++
          [.rejected next.id connectFailedMsg]) :=
        prefixesOk_append _ _ hP1 hTr3
      by_cases hws : s.wsOpen = true
      · rw [processNextRequest_wsOpen oracle s next rest hA hq hws]
        refine ⟨⟨hP2, Or.inr ⟨mkActive next s.nextTimerId, d, rfl, hnid, hset2, hact2,
          hrest, by dsimp only; omega⟩, ?_, hreqRest, ?_⟩, ?_, ?_⟩
        · show (match some (mkActive next s.nextTimerId) with
            | some a => s.pendingTimers ++ [s.nextTimerId] = [a.timerId] ∧
                a.timerId < s.nextTimerId + 1
            | none => s.pendingTimers ++ [s.nextTimerId] = ([] : List Nat))
          rw [hTimers]
          exact ⟨rfl, Nat.lt_succ_self _⟩
        · intro a ha
          cases ha
          exact hreqNext
        · intro a' ha'
          cases ha'
          exact ⟨le_of_eq hnid.symm, le_refl _⟩
        · exact ⟨[.activated next.id] ++ [.sent next.id], by simp⟩
      · have hws' : s.wsOpen = false := by
          cases hwsv : s.wsOpen
          · rfl
          · exact absurd hwsv hws
        by_cases hor : oracle s.connAttempts = true
        · rw [processNextRequest_connect_ok oracle s next rest hA hq hws' hor]
          refine ⟨⟨hP2, Or.inr ⟨mkActive next s.nextTimerId, d, rfl, hnid, hset2, hact2,
            hrest, by dsimp only; omega⟩, ?_, hreqRest, ?_⟩, ?_, ?_⟩
          · show (match some (mkActive next s.nextTimerId) with
              | some a => s.pendingTimers ++ [s.nextTimerId] = [a.timerId] ∧
                  a.timerId < s.nextTimerId + 1
              | none => s.pendingTimers ++ [s.nextTimerId] = ([] : List Nat))
            rw [hTimers]
            exact ⟨rfl, Nat.lt_succ_self _⟩
          · intro a ha
            cases ha
            exact hreqNext
          · intro a' ha'
            cases ha'
            exact ⟨le_of_eq hnid.symm, le_refl _⟩
          · exact ⟨[.activated next.id] ++ [.sent next.id], by simp⟩
        · have hor' : oracle s.connAttempts = false := by
            cases horv : oracle s.connAttempts
            · rfl
            · exact absurd horv hor
          rw [processNextRequest_connect_fail oracle s next rest hA hq hws' hor']
          have hpt : ((s.pendingTimers ++ [s.nextTimerId]).filter
              (fun h => h ≠ s.nextTimerId)) = [] := by
            rw [hTimers]
            simp
          obtain ⟨hInv', hBound', htail', htr'⟩ := ih rest.length (by omega)
            { s with
              activeRequest := none
              queuedRequests := rest
              pendingTimers := (s.pendingTimers ++ [s.nextTimerId]).filter
                (fun h => h ≠ s.nextTimerId)
              nextTimerId := s.nextTimerId + 1
              connAttempts := s.connAttempts + 1
              trace := (s.trace ++ [.activated next.id]) ++
                [.rejected next.id connectFailedMsg] }
            rfl (d + 1) hP3 ⟨rfl, hset3, hact3, hrest, by dsimp only; omega⟩ hpt hreqRest
          refine ⟨hInv', ?_, ?_⟩
          · intro a' ha'
            obtain ⟨hid, htimer⟩ := hBound' a' ha'
            dsimp only at htimer
            exact ⟨by omega, by omega⟩
          · exact ⟨[.activated next.id] ++ [.rejected next.id connectFailedMsg] ++ htail',
              by rw [htr']; simp⟩

theorem settle_trace_ok (s : MuxState) (a : ActiveRequest) (d : Nat) (e : OutEvent)
    (hPref : PrefixesOk s.trace) (hSome : SomeShape s a d)
    (hE : settleId e = some a.id) (hEa : actId e = none) (hEs : sentId e = none) :
    settleIds (s.trace ++ [e]) = List.range (d + 1) ∧
    actIds (s.trace ++ [e]) = List.range (d + 1) ∧
    PrefixesOk (s.trace ++ [e]) := by
  obtain ⟨hA, hid, hSettle, hAct, hQ, hNext⟩ := hSome
  have h1 : settleIds (s.trace ++ [e]) = List.range (d + 1) := by
    rw [settleIds_append, hSettle, hE, hid]
    simp [List.range_succ]
  have h2 : actIds (s.trace ++ [e]) = List.range (d + 1) := by
    rw [actIds_append, hAct, hEa]
    simp
  have h3 : sentIds (s.trace ++ [e]) = sentIds s.trace := by
    rw [sentIds_append, hEs]
    simp
  have hTr : TraceOk s.trace := traceOk_of_prefixesOk hPref
  refine ⟨h1, h2, prefixesOk_append _ _ hPref ⟨⟨d + 1, d + 1, h1, h2, Or.inl rfl⟩, ?_⟩⟩
  rw [h3, h1]
  intro k hk m hm
  have hmem := hTr.2 k hk m hm
  rw [hSettle] at hmem
  exact List.mem_range.mpr (Nat.lt_succ_of_lt (List.mem_range.mp hmem))

/-- Settling the active request with one settle event and advancing the queue
reestablishes the invariant; any subsequently activated request is strictly
later and has a strictly fresher timer; the settle event stays in the trace. -/
theorem settled_state_spec (oracle : Nat → Bool) (s : MuxState) (cur : ActiveRequest)
    (d : Nat) (e : OutEvent)
    (hPref : PrefixesOk s.trace) (hSome : SomeShape s cur d)
    (hpt : s.pendingTimers.filter (fun h => h ≠ cur.timerId) = [])
    (hReqs : ∀ q ∈ s.queuedRequests, ReqOk q)
    (hE : settleId e = some cur.id) (hEa : actId e = none) (hEs : sentId e = none) :
    Inv (processNextRequest oracle
      { s with activeRequest := none,
               pendingTimers := s.pendingTimers.filter (fun h => h ≠ cur.timerId),
               trace := s.trace ++ [e] }) ∧
    (∀ a', (processNextRequest oracle
      { s with activeRequest := none,
               pendingTimers := s.pendingTimers.filter (fun h => h ≠ cur.timerId),
               trace := s.trace ++ [e] }).activeRequest = some a' →
        cur.id < a'.id ∧ s.nextTimerId ≤ a'.timerId) ∧
    (∃ tail, (processNextRequest oracle
      { s with activeRequest := none,
               pendingTimers := s.pendingTimers.filter (fun h => h ≠ cur.timerId),
               trace := s.trace ++ [e] }).trace = (s.trace ++ [e]) ++ tail) := by
  obtain ⟨h1, h2, h3⟩ := settle_trace_ok s cur d e hPref hSome hE hEa hEs
  obtain ⟨hA, hid, hSettle, hAct, hQ, hNext⟩ := hSome
  obtain ⟨hInv', hBound', htail'⟩ := processNext_spec oracle
    ({ s with activeRequest := none,
              pendingTimers := s.pendingTimers.filter (fun h => h ≠ cur.timerId),
              trace := s.trace ++ [e] } : MuxState).queuedRequests.length
    { s with activeRequest := none,
             pendingTimers := s.pendingTimers.filter (fun h => h ≠ cur.timerId),
             trace := s.trace ++ [e] }
    rfl (d + 1) h3 ⟨rfl, h1, h2, hQ, by dsimp only; omega⟩ hpt hReqs
  refine ⟨hInv', ?_, htail'⟩
  intro a' ha'
  obtain ⟨hida, htim⟩ := hBound' a' ha'
  dsimp only at htim
  exact ⟨by omega, htim⟩

theorem someShape_of_inv {s : MuxState} {cur : ActiveRequest} (h : Inv s)
    (ha : s.activeRequest = some cur) : SomeShape s cur cur.id := by
  obtain ⟨hP, hShape, hT, hQr, hAr⟩ := h
  rcases hShape with ⟨d, hN⟩ | ⟨a, d, hS⟩
  · rw [hN.1] at ha
    exact absurd ha (by simp)
  · obtain ⟨h1, h2, h3, h4, h5, h6⟩ := hS
    rw [h1] at ha
    have heq : a = cur := Option.some.inj ha
    subst heq
    subst h2
    exact ⟨h1, rfl, h3, h4, h5, h6⟩

theorem timerShape_some {s : MuxState} {cur : ActiveRequest} (h : TimerShape s)
    (ha : s.activeRequest = some cur) :
    s.pendingTimers = [cur.timerId] ∧ cur.timerId < s.nextTimerId := by
  unfold TimerShape at h
  rw [ha] at h
  exact h

theorem timer_not_pending_of_inv {r : MuxState} (hInv : Inv r) (t : Nat)
    (hb : ∀ a', r.activeRequest = some a' → t < a'.timerId) :
    t ∉ r.pendingTimers := by
  obtain ⟨_, _, hT, _, _⟩ := hInv
  unfold TimerShape at hT
  cases hact : r.activeRequest with
  | none =>
    rw [hact] at hT
    rw [hT]
    simp
  | some a' =>
    rw [hact] at hT
    rw [hT.1]
    have := hb a' hact
    simp
    omega

theorem settleActiveError_none (oracle : Nat → Bool) (msg : String) (s : MuxState)
    (ha : s.activeRequest = none) : settleActiveError oracle msg s = s := by
  unfold settleActiveError
  rw [ha]

theorem settleActiveError_some (oracle : Nat → Bool) (msg : String) (s : MuxState)
    (cur : ActiveRequest) (ha : s.activeRequest = some cur) :
    settleActiveError oracle msg s = processNextRequest oracle
      { s with activeRequest := none,
               pendingTimers := s.pendingTimers.filter (fun h => h ≠ cur.timerId),
               trace := s.trace ++ [.rejected cur.id msg] } := by
  unfold settleActiveError
  rw [ha]

/-- `settleActiveError` preserves the invariant; the trace only grows; and
for the settled request the reject callback is recorded, its timeout handle
is cleared, and any later active request is strictly later. -/
theorem settleActiveError_spec (oracle : Nat → Bool) (msg : String) (s : MuxState)
    (h : Inv s) :
    Inv (settleActiveError oracle msg s) ∧
    (∃ tail, (settleActiveError oracle msg s).trace = s.trace ++ tail) ∧
    (∀ cur, s.activeRequest = some cur →
      OutEvent.rejected cur.id msg ∈ (settleActiveError oracle msg s).trace ∧
      cur.timerId ∉ (settleActiveError oracle msg s).pendingTimers ∧
      ∀ a', (settleActiveError oracle msg s).activeRequest = some a' →
        cur.id < a'.id) := by
  cases ha : s.activeRequest with
  | none =>
    rw [settleActiveError_none oracle msg s ha]
    exact ⟨h, ⟨[], by simp⟩, fun cur hc => absurd hc (by simp)⟩
  | some cur =>
    have hS := someShape_of_inv h ha
    obtain ⟨hpt0, hfresh⟩ := timerShape_some h.2.2.1 ha
    have hpt : s.pendingTimers.filter (fun t => t ≠ cur.timerId) = [] := by
      rw [hpt0]
      simp
    rw [settleActiveError_some oracle msg s cur ha]
    obtain ⟨hInv', hBound', tail, htr⟩ := settled_state_spec oracle s cur cur.id
      (.rejected cur.id msg) h.1 hS hpt h.2.2.2.1 rfl rfl rfl
    refine ⟨hInv', ⟨[.rejected cur.id msg] ++ tail, by rw [htr]; simp⟩, ?_⟩
    intro cur' hc
    have hcc : cur' = cur := (Option.some.inj hc).symm
    subst hcc
    refine ⟨by rw [htr]; simp, ?_, fun a' ha' => (hBound' a' ha').1⟩
    exact timer_not_pending_of_inv hInv' cur'.timerId
      (fun a' ha' => by have := (hBound' a' ha').2; omega)

theorem decode_nonempty_size {chunks : List String} (h : chunks ≠ []) :
    (decodeBase64PcmChunksToWavBlob chunks).size ≠ 0 := by
  have hlen : ¬chunks.length = 0 := fun hh => h (by simpa using hh)
  unfold decodeBase64PcmChunksToWavBlob
  rw [if_neg hlen]
  show (encodePcm16ToWav _ 24000 1 16).length ≠ 0
  unfold encodePcm16ToWav
  rw [List.length_append, wavHeader_length]
  omega

theorem settleActiveSuccess_none (oracle : Nat → Bool) (s : MuxState)
    (ha : s.activeRequest = none) : settleActiveSuccess oracle s = s := by
  unfold settleActiveSuccess
  rw [ha]

theorem settleActiveSuccess_audio (oracle : Nat → Bool) (s : MuxState)
    (cur : ActiveRequest) (ha : s.activeRequest = some cur)
    (hau : cur.hasResolveAudio = true)
    (hsz : ¬(decodeBase64PcmChunksToWavBlob cur.streamedAudioChunks).size = 0) :
    settleActiveSuccess oracle s = processNextRequest oracle
      { s with activeRequest := none,
               pendingTimers := s.pendingTimers.filter (fun h => h ≠ cur.timerId),
               trace := s.trace ++ [.resolvedAudio cur.id
                 (decodeBase64PcmChunksToWavBlob cur.streamedAudioChunks).data] } := by
  unfold settleActiveSuccess
  rw [ha]
  simp only [hau, if_true, if_neg hsz]

theorem settleActiveSuccess_audio_empty (oracle : Nat → Bool) (s : MuxState)
    (cur : ActiveRequest) (ha : s.activeRequest = some cur)
    (hau : cur.hasResolveAudio = true)
    (hsz : (decodeBase64PcmChunksToWavBlob cur.streamedAudioChunks).size = 0) :
    settleActiveSuccess oracle s = processNextRequest oracle
      { s with activeRequest := none,
               pendingTimers := s.pendingTimers.filter (fun h => h ≠ cur.timerId),
               trace := s.trace ++ [.rejected cur.id emptyAudioMsg] } := by
  unfold settleActiveSuccess
  rw [ha]
  simp only [hau, if_true, if_pos hsz]

theorem settleActiveSuccess_text_empty (oracle : Nat → Bool) (s : MuxState)
    (cur : ActiveRequest) (ha : s.activeRequest = some cur)
    (hau : cur.hasResolveAudio = false) (htxt : jsTrim cur.streamedText = "") :
    settleActiveSuccess oracle s = processNextRequest oracle
      { s with activeRequest := none,
               pendingTimers := s.pendingTimers.filter (fun h => h ≠ cur.timerId),
               trace := s.trace ++ [.rejected cur.id emptyTextMsg] } := by
  unfold settleActiveSuccess
  rw [ha]
  simp only [hau, Bool.false_eq_true, if_false, if_pos htxt]

theorem settleActiveSuccess_text (oracle : Nat → Bool) (s : MuxState)
    (cur : ActiveRequest) (ha : s.activeRequest = some cur)
    (hau : cur.hasResolveAudio = false) (htxt : ¬jsTrim cur.streamedText = "")
    (hrt : cur.hasResolveText = true) :
    settleActiveSuccess oracle s = processNextRequest oracle
      { s with activeRequest := none,
               pendingTimers := s.pendingTimers.filter (fun h => h ≠ cur.timerId),
               trace := s.trace ++ [.resolvedText cur.id (jsTrim cur.streamedText)] } := by
  unfold settleActiveSuccess
  rw [ha]
  simp only [hau, Bool.false_eq_true, if_false, if_neg htxt, hrt, if_true]

/-- `settleActiveSuccess` preserves the invariant and only grows the trace;
an audio request with at least one buffered fragment resolves with the
codec's blob (the blob is nonempty, so the reject branch is not taken). -/
theorem settleActiveSuccess_spec (oracle : Nat → Bool) (s : MuxState) (h : Inv s) :
    Inv (settleActiveSuccess oracle s) ∧
    (∃ tail, (settleActiveSuccess oracle s).trace = s.trace ++ tail) ∧
    (∀ cur, s.activeRequest = some cur → cur.hasResolveAudio = true →
      cur.streamedAudioChunks ≠ [] →
      OutEvent.resolvedAudio cur.id
        (decodeBase64PcmChunksToWavBlob cur.streamedAudioChunks).data ∈
        (settleActiveSuccess oracle s).trace) := by
  cases ha : s.activeRequest with
  | none =>
    rw [settleActiveSuccess_none oracle s ha]
    exact ⟨h, ⟨[], by simp⟩, fun cur hc => absurd hc (by simp)⟩
  | some cur =>
    have hS := someShape_of_inv h ha
    obtain ⟨hpt0, hfresh⟩ := timerShape_some h.2.2.1 ha
    have hpt : s.pendingTimers.filter (fun t => t ≠ cur.timerId) = [] := by
      rw [hpt0]
      simp
    have hcceq : ∀ cur' : ActiveRequest, some cur = some cur' → cur' = cur :=
      fun cur' hc => (Option.some.inj hc).symm
    by_cases hau : cur.hasResolveAudio = true
    · by_cases hsz : (decodeBase64PcmChunksToWavBlob cur.streamedAudioChunks).size = 0
      · rw [settleActiveSuccess_audio_empty oracle s cur ha hau hsz]
        obtain ⟨hInv', hBound', tail, htr⟩ := settled_state_spec oracle s cur cur.id
          (.rejected cur.id emptyAudioMsg) h.1 hS hpt h.2.2.2.1 rfl rfl rfl
        refine ⟨hInv', ⟨[.rejected cur.id emptyAudioMsg] ++ tail, by rw [htr]; simp⟩, ?_⟩
        intro cur' hc hau' hne
        have hcc := hcceq cur' hc
        subst hcc
        exact absurd hsz (decode_nonempty_size hne)
      · rw [settleActiveSuccess_audio oracle s cur ha hau hsz]
        obtain ⟨hInv', hBound', tail, htr⟩ := settled_state_spec oracle s cur cur.id
          (.resolvedAudio cur.id
            (decodeBase64PcmChunksToWavBlob cur.streamedAudioChunks).data)
          h.1 hS hpt h.2.2.2.1 rfl rfl rfl
        refine ⟨hInv', ⟨[.resolvedAudio cur.id
          (decodeBase64PcmChunksToWavBlob cur.streamedAudioChunks).data] ++ tail,
          by rw [htr]; simp⟩, ?_⟩
        intro cur' hc hau' hne
        have hcc := hcceq cur' hc
        subst hcc
        rw [htr]
        simp
    · have hauf : cur.hasResolveAudio = false := by
        cases hv : cur.hasResolveAudio
        · rfl
        · exact absurd hv hau
      have hrt : cur.hasResolveText = true := by
        rcases h.2.2.2.2 cur ha with hx | hx
        · rw [hauf] at hx
          exact absurd hx (by simp)
        · exact hx
      by_cases htxt : jsTrim cur.streamedText = ""
      · rw [settleActiveSuccess_text_empty oracle s cur ha hauf htxt]
        obtain ⟨hInv', hBound', tail, htr⟩ := settled_state_spec oracle s cur cur.id
          (.rejected cur.id emptyTextMsg) h.1 hS hpt h.2.2.2.1 rfl rfl rfl
        refine ⟨hInv', ⟨[.rejected cur.id emptyTextMsg] ++ tail, by rw [htr]; simp⟩, ?_⟩
        intro cur' hc hau' hne
        have hcc := hcceq cur' hc
        subst hcc
        rw [hauf] at hau'
        exact absurd hau' (by simp)
      · rw [settleActiveSuccess_text oracle s cur ha hauf htxt hrt]
        obtain ⟨hInv', hBound', tail, htr⟩ := settled_state_spec oracle s cur cur.id
          (.resolvedText cur.id (jsTrim cur.streamedText)) h.1 hS hpt h.2.2.2.1 rfl rfl rfl
        refine ⟨hInv', ⟨[.resolvedText cur.id (jsTrim cur.streamedText)] ++ tail,
          by rw [htr]; simp⟩, ?_⟩
        intro cur' hc hau' hne
        have hcc := hcceq cur' hc
        subst hcc
        rw [hauf] at hau'
        exact absurd hau' (by simp)

theorem inv_update_active (s : MuxState) (a a' : ActiveRequest) (h : Inv s)
    (ha : s.activeRequest = some a)
    (hid : a'.id = a.id) (htim : a'.timerId = a.timerId)
    (hra : a'.hasResolveAudio = a.hasResolveAudio)
    (hrt : a'.hasResolveText = a.hasResolveText) :
    Inv { s with activeRequest := some a' } := by
  obtain ⟨hP, hShape, hT, hQr, hAr⟩ := h
  obtain ⟨_, _, h3, h4, h5, h6⟩ := someShape_of_inv ⟨hP, hShape, hT, hQr, hAr⟩ ha
  refine ⟨hP, Or.inr ⟨a', a.id, rfl, hid, h3, h4, h5, h6⟩, ?_, hQr, ?_⟩
  · unfold TimerShape at hT ⊢
    rw [ha] at hT
    dsimp only
    rw [htim]
    exact hT
  · intro b hb
    have hba : b = a' := (Option.some.inj hb).symm
    subst hba
    unfold ReqOk
    rw [hra, hrt]
    exact hAr a ha

theorem inv_conn_fields {s : MuxState} (h : Inv s) (w b : Bool) :
    Inv { s with wsOpen := w, closeRequested := b } := by
  obtain ⟨hP, hShape, hT, hQr, hAr⟩ := h
  refine ⟨hP, ?_, ?_, hQr, hAr⟩
  · rcases hShape with ⟨d, hN⟩ | ⟨a, d, hS⟩
    · exact Or.inl ⟨d, hN⟩
    · exact Or.inr ⟨a, d, hS⟩
  · unfold TimerShape at hT ⊢
    exact hT

theorem inv_closeRequested {s : MuxState} (h : Inv s) (b : Bool) :
    Inv { s with closeRequested := b } := by
  obtain ⟨hP, hShape, hT, hQr, hAr⟩ := h
  refine ⟨hP, ?_, ?_, hQr, hAr⟩
  · rcases hShape with ⟨d, hN⟩ | ⟨a, d, hS⟩
    · exact Or.inl ⟨d, hN⟩
    · exact Or.inr ⟨a, d, hS⟩
  · unfold TimerShape at hT ⊢
    exact hT

set_option maxHeartbeats 1600000 in
/-- The response accumulator preserves the invariant and only grows the
trace. -/
theorem onRealtimeMessage_spec (oracle : Nat → Bool)
    (pe : Option OpenAiRealtimeServerEvent) (s : MuxState) (h : Inv s) :
    Inv (onRealtimeMessage oracle pe s) ∧
    (∃ tail, (onRealtimeMessage oracle pe s).trace = s.trace ++ tail) := by
  cases pe with
  | none => exact ⟨h, ⟨[], by simp [onRealtimeMessage]⟩⟩
  | some ev =>
    cases hact : s.activeRequest with
    | none =>
      have hss : onRealtimeMessage oracle (some ev) s = s := by
        unfold onRealtimeMessage
        rw [hact]
      rw [hss]
      exact ⟨h, ⟨[], by simp⟩⟩
    | some activeReq =>
      unfold onRealtimeMessage
      rw [hact]
      dsimp only
      by_cases h1 : ev.type = some "error"
      · rw [if_pos h1]
        obtain ⟨hi, ht, _⟩ := settleActiveError_spec oracle
          (jsOrElse (ev.error.bind RtErrorInfo.message) genericFailMsg) s h
        exact ⟨hi, ht⟩
      · rw [if_neg h1]
        by_cases h2 : ev.type = some "response.output_text.delta" ∧ ev.delta.isSome = true
        · rw [if_pos h2]
          exact ⟨inv_update_active _ _ _ h hact rfl rfl rfl rfl, ⟨[], by simp⟩⟩
        · rw [if_neg h2]
          by_cases h3 : ev.type = some "response.output_text.done" ∧ ev.text.isSome = true ∧
              jsTrim activeReq.streamedText = ""
          · rw [if_pos h3]
            exact ⟨inv_update_active _ _ _ h hact rfl rfl rfl rfl, ⟨[], by simp⟩⟩
          · rw [if_neg h3]
            by_cases h4 : ev.type = some "response.audio.delta" ∧ ev.delta.isSome = true
            · rw [if_pos h4]
              exact ⟨inv_update_active _ _ _ h hact rfl rfl rfl rfl, ⟨[], by simp⟩⟩
            · rw [if_neg h4]
              by_cases h5 : ev.type = some "response.output_audio.delta" ∧
                  ev.delta.isSome = true
              · rw [if_pos h5]
                exact ⟨inv_update_active _ _ _ h hact rfl rfl rfl rfl, ⟨[], by simp⟩⟩
              · rw [if_neg h5]
                by_cases h6 : ev.type ≠ some "response.done"
                · rw [if_pos h6]
                  exact ⟨h, ⟨[], by simp⟩⟩
                · rw [if_neg h6]
                  by_cases h7 : ((match ev.response.bind RtResponseInfo.status with
                      | some st => decide (st ≠ "") && decide (st ≠ "completed")
                      | none => false) &&
                      !(decide (ev.response.bind RtResponseInfo.status = some "incomplete") &&
                        activeReq.modalities.contains Modality.audio &&
                        decide (0 < activeReq.streamedAudioChunks.length))) = true
                  · rw [if_pos h7]
                    obtain ⟨hi, ht, _⟩ := settleActiveError_spec oracle _ _
                      (inv_update_active s activeReq
                        ({ activeReq with receivedDoneEvent := true }) h hact rfl rfl rfl rfl)
                    exact ⟨hi, ht⟩
                  · rw [if_neg h7]
                    by_cases h8 : jsTrim activeReq.streamedText = "" ∧
                        getResponseTextFromDoneEvent ev ≠ ""
                    · rw [if_pos h8]
                      obtain ⟨hi, ht, _⟩ := settleActiveSuccess_spec oracle _
                        (inv_update_active s activeReq ({ activeReq with receivedDoneEvent := true, streamedText := getResponseTextFromDoneEvent ev }) h hact rfl rfl rfl rfl)
                      exact ⟨hi, ht⟩
                    · rw [if_neg h8]
                      obtain ⟨hi, ht, _⟩ := settleActiveSuccess_spec oracle _
                        (inv_update_active s activeReq
                          ({ activeReq with receivedDoneEvent := true }) h hact rfl rfl rfl rfl)
                      exact ⟨hi, ht⟩

theorem range'_snoc (d k : Nat) : List.range' d k ++ [d + k] = List.range' d (k + 1) := by
  rw [List.range'_concat]
  simp

theorem inv_closeWrap {x : MuxState} {base : List OutEvent} (hx : Inv x)
    (htr : ∃ tail, x.trace = base ++ tail) :
    Inv (if x.wsOpen = true then { x with closeRequested := true } else x) ∧
    (∃ tail, (if x.wsOpen = true then { x with closeRequested := true } else x).trace =
      base ++ tail) := by
  split
  · exact ⟨inv_closeRequested hx true, htr⟩
  · exact ⟨hx, htr⟩

/-- The timeout handler preserves the invariant and only grows the trace. -/
theorem onTimerFires_spec (oracle : Nat → Bool) (t : Nat) (s : MuxState) (h : Inv s) :
    Inv (onTimerFires oracle t s) ∧
    (∃ tail, (onTimerFires oracle t s).trace = s.trace ++ tail) := by
  unfold onTimerFires
  dsimp only
  by_cases hc : s.pendingTimers.contains t = true
  · rw [if_pos hc]
    cases hact : s.activeRequest with
    | none =>
      have hT := h.2.2.1
      unfold TimerShape at hT
      rw [hact] at hT
      rw [hT] at hc
      simp at hc
    | some cur =>
      obtain ⟨hpt0, hfresh⟩ := timerShape_some h.2.2.1 hact
      have ht' : t = cur.timerId := by
        rw [hpt0] at hc
        simpa using hc
      subst ht'
      obtain ⟨h1s, h2s, h3s, h4s, h5s, h6s⟩ := someShape_of_inv h hact
      rw [settleActiveError_some oracle timeoutMsgText
        ({ s with activeRequest := some cur,
                  pendingTimers := s.pendingTimers.filter (fun x => x ≠ cur.timerId) })
        cur rfl]
      have hpt2 : (({ s with activeRequest := some cur, pendingTimers :=
          s.pendingTimers.filter (fun x => x ≠ cur.timerId) } : MuxState)).pendingTimers.filter
          (fun x => x ≠ cur.timerId) = [] := by
        dsimp only
        rw [hpt0]
        simp
      obtain ⟨hInv', hBound', tail, htrace⟩ := settled_state_spec oracle
        { s with activeRequest := some cur,
                 pendingTimers := s.pendingTimers.filter (fun x => x ≠ cur.timerId) }
        cur cur.id (.rejected cur.id timeoutMsgText)
        h.1 ⟨rfl, rfl, h3s, h4s, h5s, h6s⟩ hpt2 h.2.2.2.1 rfl rfl rfl
      refine (inv_closeWrap hInv' ?_).imp id id
      exact ⟨[.rejected cur.id timeoutMsgText] ++ tail, by rw [htrace]; simp⟩
  · rw [if_neg hc]
    exact ⟨h, ⟨[], by simp⟩⟩

/-- The runtime websocket error listener preserves the invariant. -/
theorem onWsError_spec (oracle : Nat → Bool) (s : MuxState) (h : Inv s) :
    Inv (onWsError oracle s) ∧
    (∃ tail, (onWsError oracle s).trace = s.trace ++ tail) := by
  unfold onWsError
  obtain ⟨hi, ht, _⟩ := settleActiveError_spec oracle wsErrorMsg s h
  exact ⟨hi, ht⟩

/-- The close listener preserves the invariant. -/
theorem onWsClose_spec (oracle : Nat → Bool) (s : MuxState) (h : Inv s) :
    Inv (onWsClose oracle s) ∧
    (∃ tail, (onWsClose oracle s).trace = s.trace ++ tail) := by
  unfold onWsClose
  dsimp only
  have h0 : Inv { s with wsOpen := false, closeRequested := false } :=
    inv_conn_fields h false false
  split
  · obtain ⟨hi, ht, _⟩ := settleActiveError_spec oracle closedBeforeCompletionMsg _ h0
    exact ⟨hi, ht⟩
  · exact ⟨h0, ⟨[], by simp⟩⟩

/-- Enqueuing a fresh well-formed request and kicking the queue preserves the
invariant. -/
theorem enqueue_spec (oracle : Nat → Bool) (req : QueuedRequest) (s : MuxState)
    (h : Inv s) (hreq : ReqOk req) (hid : req.id = s.nextId) :
    Inv (processNextRequest oracle
      { s with queuedRequests := s.queuedRequests ++ [req],
               nextId := s.nextId + 1,
               trace := s.trace ++ [.enqueued s.nextId] }) ∧
    (∃ tail, (processNextRequest oracle
      { s with queuedRequests := s.queuedRequests ++ [req],
               nextId := s.nextId + 1,
               trace := s.trace ++ [.enqueued s.nextId] }).trace = s.trace ++ tail) := by
  obtain ⟨hP, hShape, hT, hQr, hAr⟩ := h
  have hset : settleIds (s.trace ++ [.enqueued s.nextId]) = settleIds s.trace := by
    rw [settleIds_append]
    simp [settleId]
  have hactl : actIds (s.trace ++ [.enqueued s.nextId]) = actIds s.trace := by
    rw [actIds_append]
    simp [actId]
  have hsent : sentIds (s.trace ++ [.enqueued s.nextId]) = sentIds s.trace := by
    rw [sentIds_append]
    simp [sentId]
  have hTr : TraceOk s.trace := traceOk_of_prefixesOk hP
  have hTr1 : TraceOk (s.trace ++ [.enqueued s.nextId]) := by
    obtain ⟨⟨d, e, hs1, hs2, hs3⟩, hs4⟩ := hTr
    exact ⟨⟨d, e, by rw [hset, hs1], by rw [hactl, hs2], hs3⟩,
      by rw [hsent, hset]; exact hs4⟩
  have hP1 : PrefixesOk (s.trace ++ [.enqueued s.nextId]) :=
    prefixesOk_append _ _ hP hTr1
  have hreqs1 : ∀ q ∈ s.queuedRequests ++ [req], ReqOk q := by
    intro q hq
    rcases List.mem_append.mp hq with hq | hq
    · exact hQr q hq
    · rw [List.mem_singleton.mp hq]
      exact hreq
  rcases hShape with ⟨d, hN⟩ | ⟨a, d, hS⟩
  · obtain ⟨hA, hSe, hAc, hQi, hNi⟩ := hN
    have hQi' : (s.queuedRequests ++ [req]).map QueuedRequest.id =
        List.range' d (s.queuedRequests.length + 1) := by
      rw [List.map_append, hQi]
      simp only [List.map_cons, List.map_nil, hid, hNi]
      exact range'_snoc d s.queuedRequests.length
    have hTe : s.pendingTimers = [] := by
      unfold TimerShape at hT
      rw [hA] at hT
      exact hT
    obtain ⟨hInv', _, tail, htr⟩ := processNext_spec oracle
      (s.queuedRequests ++ [req]).length
      { s with queuedRequests := s.queuedRequests ++ [req],
               nextId := s.nextId + 1,
               trace := s.trace ++ [.enqueued s.nextId] }
      rfl d hP1 ⟨hA, by rw [hset, hSe], by rw [hactl, hAc],
        by simp only [List.length_append, List.length_singleton]; exact hQi',
        by simp only [List.length_append, List.length_singleton]; omega⟩ hTe hreqs1
    exact ⟨hInv', ⟨[.enqueued s.nextId] ++ tail, by rw [htr]; simp⟩⟩
  · obtain ⟨hA, hid0, hSe, hAc, hQi, hNi⟩ := hS
    rw [processNextRequest_active oracle _ (by dsimp only; rw [hA]; rfl)]
    have hQi' : (s.queuedRequests ++ [req]).map QueuedRequest.id =
        List.range' (d + 1) (s.queuedRequests.length + 1) := by
      rw [List.map_append, hQi]
      simp only [List.map_cons, List.map_nil, hid, hNi]
      exact range'_snoc (d + 1) s.queuedRequests.length
    refine ⟨⟨hP1, Or.inr ⟨a, d, hA, hid0, by rw [hset, hSe], by rw [hactl, hAc],
      by simp only [List.length_append, List.length_singleton]; exact hQi',
      by simp only [List.length_append, List.length_singleton]; omega⟩, ?_, hreqs1, ?_⟩,
      ⟨[.enqueued s.nextId], rfl⟩⟩
    · unfold TimerShape at hT ⊢
      dsimp only
      exact hT
    · intro b hb
      exact hAr b hb

/-- Every environment step preserves the invariant and only grows the trace. -/
theorem applyStep_spec (oracle : Nat → Bool) (st : MuxStep) (s : MuxState) (h : Inv s) :
    Inv (applyStep oracle st s) ∧
    (∃ tail, (applyStep oracle st s).trace = s.trace ++ tail) := by
  cases st with
  | enqueueText p i =>
    unfold applyStep runOpenAiRealtimeRequest
    exact enqueue_spec oracle _ s h (Or.inr rfl) rfl
  | enqueueAudio t l =>
    unfold applyStep runOpenAiRealtimeAudioRequest
    exact enqueue_spec oracle _ s h (Or.inl rfl) rfl
  | message ev => exact onRealtimeMessage_spec oracle ev s h
  | timerFires t => exact onTimerFires_spec oracle t s h
  | wsError => exact onWsError_spec oracle s h
  | wsClose => exact onWsClose_spec oracle s h

theorem inv_init : Inv initState := by
  refine ⟨?_, Or.inl ⟨0, rfl, rfl, rfl, rfl, rfl⟩, rfl, ?_, ?_⟩
  · intro p
    refine ⟨⟨0, 0, ?_, ?_, Or.inl rfl⟩, ?_⟩
    · simp [initState, settleIds]
    · simp [initState, actIds]
    · intro n hn m hm
      simp [initState, sentIds] at hn
  · intro q hq
    simp [initState] at hq
  · intro a ha
    simp [initState] at ha

/-- All states reachable by a run satisfy the invariant. -/
theorem inv_run (oracle : Nat → Bool) (steps : List MuxStep) : Inv (run oracle steps) := by
  unfold run
  have hfold : ∀ (l : List MuxStep) (s : MuxState), Inv s →
      Inv (l.foldl (fun s st => applyStep oracle st s) s) := by
    intro l
    induction l with
    | nil => exact fun s hs => hs
    | cons st rest ih =>
      intro s hs
      exact ih _ (applyStep_spec oracle st s hs).1
  exact hfold steps initState inv_init

/-! ## Claim theorems for the multiplexer -/

/-- C1: under any sequence of enqueues and upstream events, at most one
request is in flight at any instant — among the activated-but-unsettled
request ids of every trace prefix any two are equal — and dispatch is
strictly FIFO: whenever the upstream `response.create` for request `n` has
been sent (in any prefix), every earlier request `m < n` is already settled
in that prefix. -/
theorem c1_single_flight_fifo (oracle : Nat → Bool) (steps : List MuxStep) (p : Nat) :
    (∀ n m : Nat, n ∈ actIds ((run oracle steps).trace.take p) →
      m ∈ actIds ((run oracle steps).trace.take p) →
      n ∉ settleIds ((run oracle steps).trace.take p) →
      m ∉ settleIds ((run oracle steps).trace.take p) → n = m) ∧
    (∀ n ∈ sentIds ((run oracle steps).trace.take p),
      ∀ m, m < n → m ∈ settleIds ((run oracle steps).trace.take p)) := by
  obtain ⟨⟨d, e, hs, ha, he⟩, hsent⟩ := (inv_run oracle steps).1 p
  refine ⟨?_, by rw [hs]; rwa [hs] at hsent⟩
  intro n m hn hm hns hms
  rw [ha, List.mem_range] at hn hm
  rw [hs] at hns hms
  simp only [List.mem_range] at hns hms
  rcases he with he | he <;> omega

/-- A concrete upstream error event, used to settle a request in witnesses. -/
def errorEvent : OpenAiRealtimeServerEvent :=
  { type := some "error", delta := none, text := none, error := none, response := none }

/-- C1 witness: two text requests where the first is settled by an explicit
upstream error event; the second request's `response.create` is in the trace
and the first is settled before it. -/
theorem c1_single_flight_fifo_witness :
    (1 : Nat) = 1 ∧
    0 ∈ settleIds ((run (fun _ => true)
      [MuxStep.enqueueText "hola" "inst", MuxStep.enqueueText "adios" "inst",
       MuxStep.message (some errorEvent)]).trace.take 7) :=
  ⟨(c1_single_flight_fifo (fun _ => true)
      [MuxStep.enqueueText "hola" "inst", MuxStep.enqueueText "adios" "inst",
       MuxStep.message (some errorEvent)] 7).1 1 1
      (by decide) (by decide) (by decide) (by decide),
   (c1_single_flight_fifo (fun _ => true)
      [MuxStep.enqueueText "hola" "inst", MuxStep.enqueueText "adios" "inst",
       MuxStep.message (some errorEvent)] 7).2 1 (by decide) 0 (by decide)⟩

/-- C2: every settled request settles exactly once — over any run the settled
ids are duplicate-free and every settle belongs to an activated request;
settling clears the timeout handle and the slot (the settled request's timer
is no longer pending and the slot holds only strictly later requests) while
recording exactly one of the resolve/reject callbacks; and a second settle
attempt is a no-op: `settleActiveError` with an empty slot and a fired timer
whose handle was already cleared (`clearTimeout`) change nothing. -/
theorem c2_settle_exactly_once :
    (∀ (oracle : Nat → Bool) (steps : List MuxStep),
      (settleIds (run oracle steps).trace).Nodup ∧
      ∀ n ∈ settleIds (run oracle steps).trace, n ∈ actIds (run oracle steps).trace) ∧
    (∀ (oracle : Nat → Bool) (msg : String) (s : MuxState) (cur : ActiveRequest),
      Inv s → s.activeRequest = some cur →
      OutEvent.rejected cur.id msg ∈ (settleActiveError oracle msg s).trace ∧
      cur.timerId ∉ (settleActiveError oracle msg s).pendingTimers ∧
      (∀ a', (settleActiveError oracle msg s).activeRequest = some a' →
        cur.id < a'.id)) ∧
    (∀ (oracle : Nat → Bool) (msg : String) (s : MuxState),
      s.activeRequest = none → settleActiveError oracle msg s = s) ∧
    (∀ (oracle : Nat → Bool) (t : Nat) (s : MuxState),
      s.pendingTimers.contains t = false → onTimerFires oracle t s = s) := by
  refine ⟨?_, ?_, ?_, ?_⟩
  · intro oracle steps
    obtain ⟨⟨d, e, hs, ha, he⟩, _⟩ := traceOk_of_prefixesOk (inv_run oracle steps).1
    rw [hs, ha]
    refine ⟨List.nodup_range d, ?_⟩
    intro n hn
    rw [List.mem_range] at hn
    rw [List.mem_range]
    rcases he with he | he <;> omega
  · intro oracle msg s cur hInv hact
    exact (settleActiveError_spec oracle msg s hInv).2.2 cur hact
  · intro oracle msg s ha
    exact settleActiveError_none oracle msg s ha
  · intro oracle t s hc
    unfold onTimerFires
    rw [if_neg (by rw [hc]; exact Bool.false_ne_true)]

/-- C2 witness: the run parts at a concrete two-request run, the settle parts
at the reachable state holding the first request, and the no-op parts at the
initial state. -/
theorem c2_settle_exactly_once_witness :
    ((settleIds (run (fun _ => true) [MuxStep.enqueueText "hola" "inst"]).trace).Nodup ∧
      ∀ n ∈ settleIds (run (fun _ => true) [MuxStep.enqueueText "hola" "inst"]).trace,
        n ∈ actIds (run (fun _ => true) [MuxStep.enqueueText "hola" "inst"]).trace) ∧
    (OutEvent.rejected 0 "boom" ∈ (settleActiveError (fun _ => true) "boom"
        (run (fun _ => true) [MuxStep.enqueueText "hola" "inst"])).trace ∧
      (0 : Nat) ∉ (settleActiveError (fun _ => true) "boom"
        (run (fun _ => true) [MuxStep.enqueueText "hola" "inst"])).pendingTimers ∧
      (∀ a', (settleActiveError (fun _ => true) "boom"
        (run (fun _ => true) [MuxStep.enqueueText "hola" "inst"])).activeRequest = some a' →
        (0 : Nat) < a'.id)) ∧
    settleActiveError (fun _ => true) "late" initState = initState ∧
    onTimerFires (fun _ => true) 0 initState = initState := by
  refine ⟨c2_settle_exactly_once.1 (fun _ => true) [MuxStep.enqueueText "hola" "inst"],
    ?_, c2_settle_exactly_once.2.2.1 (fun _ => true) "late" initState rfl,
    c2_settle_exactly_once.2.2.2 (fun _ => true) 0 initState rfl⟩
  exact c2_settle_exactly_once.2.1 (fun _ => true) "boom"
    (run (fun _ => true) [MuxStep.enqueueText "hola" "inst"])
    { toQueuedRequest :=
        { id := 0, prompt := "hola", instructions := "inst",
          modalities := [Modality.text], audioVoice := none,
          maxOutputTokens := some 1024, hasResolveText := true,
          hasResolveAudio := false },
      timerId := 0, streamedText := "", streamedAudioChunks := [],
      receivedDoneEvent := false }
    (inv_run (fun _ => true) [MuxStep.enqueueText "hola" "inst"]) (by decide)

/-- C6: a single request's failure never stalls the queue. Part one (the
dispatch `catch`): with a free slot, a closed socket, at least two queued
requests, a failing connect attempt for the head request and a succeeding one
for the next, a single `processNextRequest` call settles the head as failed
(its reject is recorded) and still dispatches the next request (its
`response.create` is sent and it becomes active). Part two (the timeout
handler): when the active request's armed timeout fires on an open socket,
the request is rejected with the timeout message, the connection close is
requested, and the next queued request is still dispatched. -/
theorem c6_failure_never_stalls_queue :
    (∀ (oracle : Nat → Bool) (s : MuxState) (a b : QueuedRequest)
      (rest : List QueuedRequest),
      s.activeRequest = none → s.queuedRequests = a :: b :: rest →
      s.wsOpen = false → s.pendingTimers = [] →
      oracle s.connAttempts = false → oracle (s.connAttempts + 1) = true →
      processNextRequest oracle s =
        { s with
          wsOpen := true
          activeRequest := some (mkActive b (s.nextTimerId + 1))
          queuedRequests := rest
          pendingTimers := [s.nextTimerId + 1]
          nextTimerId := s.nextTimerId + 2
          connAttempts := s.connAttempts + 2
          trace := s.trace ++ [.activated a.id, .rejected a.id connectFailedMsg,
            .activated b.id, .sent b.id] }) ∧
    (∀ (oracle : Nat → Bool) (s : MuxState) (cur : ActiveRequest)
      (b : QueuedRequest) (rest : List QueuedRequest),
      s.activeRequest = some cur → s.pendingTimers = [cur.timerId] →
      s.wsOpen = true → s.queuedRequests = b :: rest →
      onTimerFires oracle cur.timerId s =
        { s with
          closeRequested := true
          activeRequest := some (mkActive b s.nextTimerId)
          queuedRequests := rest
          pendingTimers := [s.nextTimerId]
          nextTimerId := s.nextTimerId + 1
          trace := s.trace ++ [.rejected cur.id timeoutMsgText,
            .activated b.id, .sent b.id] }) := by
  constructor
  · intro oracle s a b rest hA hq hws hpt ho1 ho2
    rw [processNextRequest_connect_fail oracle s a (b :: rest) hA hq hws ho1]
    rw [processNextRequest_connect_ok oracle _ b rest (by rfl) (by rfl)
      (by exact hws) (by exact ho2)]
    simp [hpt]
  · intro oracle s cur b rest hA hpt hws hq
    unfold onTimerFires
    rw [if_pos (by rw [hpt]; simp)]
    dsimp only
    rw [settleActiveError_some oracle timeoutMsgText _ cur (by exact hA)]
    rw [processNextRequest_wsOpen oracle _ b rest (by rfl) (by exact hq) (by exact hws)]
    dsimp only
    rw [if_pos hws]
    simp [hpt]

/-- A concrete text request used as a queue entry in multiplexer witnesses. -/
def c6ReqA : QueuedRequest :=
  { id := 0, prompt := "p", instructions := "i", modalities := [Modality.text],
    audioVoice := none, maxOutputTokens := some 1024,
    hasResolveText := true, hasResolveAudio := false }

/-- A second concrete text request. -/
def c6ReqB : QueuedRequest :=
  { id := 1, prompt := "q", instructions := "i", modalities := [Modality.text],
    audioVoice := none, maxOutputTokens := some 1024,
    hasResolveText := true, hasResolveAudio := false }

/-- Idle closed-socket state holding two queued requests. -/
def c6StateA : MuxState :=
  { initState with queuedRequests := [c6ReqA, c6ReqB], nextId := 2 }

/-- Open-socket state with an active first request (armed timer 0) and the
second request queued. -/
def c6StateB : MuxState :=
  { initState with
    wsOpen := true
    activeRequest := some (mkActive c6ReqA 0)
    pendingTimers := [0]
    queuedRequests := [c6ReqB]
    nextId := 2
    nextTimerId := 1 }

/-- C6 witness: part one at the two-request idle state with an oracle that
fails the first connect attempt and accepts the second; part two at the
open-socket state when the first request's timer fires. -/
theorem c6_failure_never_stalls_queue_witness :
    (processNextRequest (fun n => decide (n = 1)) c6StateA =
      { c6StateA with
        wsOpen := true
        activeRequest := some (mkActive c6ReqB (c6StateA.nextTimerId + 1))
        queuedRequests := []
        pendingTimers := [c6StateA.nextTimerId + 1]
        nextTimerId := c6StateA.nextTimerId + 2
        connAttempts := c6StateA.connAttempts + 2
        trace := c6StateA.trace ++ [.activated c6ReqA.id,
          .rejected c6ReqA.id connectFailedMsg,
          .activated c6ReqB.id, .sent c6ReqB.id] }) ∧
    (onTimerFires (fun n => decide (n = 1)) (mkActive c6ReqA 0).timerId c6StateB =
      { c6StateB with
        closeRequested := true
        activeRequest := some (mkActive c6ReqB c6StateB.nextTimerId)
        queuedRequests := []
        pendingTimers := [c6StateB.nextTimerId]
        nextTimerId := c6StateB.nextTimerId + 1
        trace := c6StateB.trace ++ [.rejected (mkActive c6ReqA 0).id timeoutMsgText,
          .activated c6ReqB.id, .sent c6ReqB.id] }) :=
  ⟨c6_failure_never_stalls_queue.1 (fun n => decide (n = 1)) c6StateA c6ReqA c6ReqB []
      rfl rfl rfl rfl (by decide) (by decide),
   c6_failure_never_stalls_queue.2 (fun n => decide (n = 1)) c6StateB (mkActive c6ReqA 0)
      c6ReqB [] rfl rfl rfl rfl⟩

/-- C5: dispatch of a terminal event with status "incomplete". Part one: on
an audio request (audio modality, resolve-audio callback) that has buffered
at least one audio fragment, the event resolves the request successfully with
the encoded WAV of its fragments. Part two: on a request without the audio
modality the same status rejects the request, with the status-detail message
when present and otherwise the generic ended-with-status error. -/
theorem c5_incomplete_status_dispatch :
    (∀ (oracle : Nat → Bool) (ev : OpenAiRealtimeServerEvent) (s : MuxState)
      (cur : ActiveRequest),
      Inv s → s.activeRequest = some cur →
      ev.type = some "response.done" →
      ev.response.bind RtResponseInfo.status = some "incomplete" →
      cur.modalities.contains Modality.audio = true →
      cur.hasResolveAudio = true →
      cur.streamedAudioChunks ≠ [] →
      OutEvent.resolvedAudio cur.id
        (decodeBase64PcmChunksToWavBlob cur.streamedAudioChunks).data ∈
        (onRealtimeMessage oracle (some ev) s).trace) ∧
    (∀ (oracle : Nat → Bool) (ev : OpenAiRealtimeServerEvent) (s : MuxState)
      (cur : ActiveRequest),
      Inv s → s.activeRequest = some cur →
      ev.type = some "response.done" →
      ev.response.bind RtResponseInfo.status = some "incomplete" →
      cur.modalities.contains Modality.audio = false →
      OutEvent.rejected cur.id
        (jsOrElse
          ((ev.response.bind RtResponseInfo.status_details).bind
            (fun sd => sd.error.bind RtStatusDetailsError.message))
          "OpenAI response ended with status 'incomplete'") ∈
        (onRealtimeMessage oracle (some ev) s).trace) := by
  constructor
  · intro oracle ev s cur hInv hact htype hst hmod hra hchunks
    unfold onRealtimeMessage
    rw [hact]
    dsimp only
    rw [if_neg (by simp [htype]), if_neg (by simp [htype]), if_neg (by simp [htype]),
      if_neg (by simp [htype]), if_neg (by simp [htype]), if_neg (by simp [htype])]
    have hmem : Modality.audio ∈ cur.modalities := by simpa using hmod
    rw [if_neg (by rw [hst]; simp [hmem, List.length_pos, hchunks])]
    by_cases h8 : jsTrim cur.streamedText = "" ∧ getResponseTextFromDoneEvent ev ≠ ""
    · rw [if_pos h8]
      exact (settleActiveSuccess_spec oracle _
        (inv_update_active s cur ({ cur with receivedDoneEvent := true, streamedText := getResponseTextFromDoneEvent ev }) hInv hact rfl rfl rfl rfl)).2.2
        ({ cur with receivedDoneEvent := true, streamedText := getResponseTextFromDoneEvent ev }) rfl hra hchunks
    · rw [if_neg h8]
      exact (settleActiveSuccess_spec oracle _
        (inv_update_active s cur ({ cur with receivedDoneEvent := true }) hInv hact
          rfl rfl rfl rfl)).2.2 ({ cur with receivedDoneEvent := true }) rfl hra hchunks
  · intro oracle ev s cur hInv hact htype hst hmod
    unfold onRealtimeMessage
    rw [hact]
    dsimp only
    rw [if_neg (by simp [htype]), if_neg (by simp [htype]), if_neg (by simp [htype]),
      if_neg (by simp [htype]), if_neg (by simp [htype]), if_neg (by simp [htype])]
    have hmem : Modality.audio ∉ cur.modalities := by simpa using hmod
    rw [if_pos (by rw [hst]; simp [hmem])]
    rw [hst]
    exact ((settleActiveError_spec oracle _ _
      (inv_update_active s cur ({ cur with receivedDoneEvent := true }) hInv hact
        rfl rfl rfl rfl)).2.2 ({ cur with receivedDoneEvent := true }) rfl).1

/-- A concrete audio-delta frame carrying one base64 fragment. -/
def c5AudioDeltaEv : OpenAiRealtimeServerEvent :=
  { type := some "response.audio.delta"
    delta := some "AAAA"
    text := none
    error := none
    response := none }

/-- A concrete terminal frame with status "incomplete" and no status details. -/
def c5DoneIncompleteEv : OpenAiRealtimeServerEvent :=
  { type := some "response.done"
    delta := none
    text := none
    error := none
    response := some { status := some "incomplete", status_details := none, usage := none, output := none } }

/-- The reachable state after enqueueing an audio request (connect succeeds)
and receiving one audio fragment. -/
def c5AudioState : MuxState :=
  run (fun _ => true) [MuxStep.enqueueAudio "hi" "French", MuxStep.message (some c5AudioDeltaEv)]

/-- The active request held by `c5AudioState`. -/
def c5AudioCur : ActiveRequest :=
  { toQueuedRequest :=
      { id := 0
        prompt := buildAudioPrompt "hi" "French"
        instructions := "You are a text-to-speech engine. Speak the provided text exactly, with natural pacing."
        modalities := [Modality.audio, Modality.text]
        audioVoice := some "sage"
        maxOutputTokens := some 256
        hasResolveText := false
        hasResolveAudio := true }
    timerId := 0
    streamedText := ""
    streamedAudioChunks := ["AAAA"]
    receivedDoneEvent := false }

/-- The reachable state after enqueueing one text request (connect succeeds). -/
def c5TextState : MuxState :=
  run (fun _ => true) [MuxStep.enqueueText "hola" "inst"]

/-- The active request held by `c5TextState`. -/
def c5TextCur : ActiveRequest :=
  mkActive
    { id := 0, prompt := "hola", instructions := "inst", modalities := [Modality.text],
      audioVoice := none, maxOutputTokens := some 1024,
      hasResolveText := true, hasResolveAudio := false } 0

/-- C5 witness: the incomplete terminal frame resolves the buffered audio
request with its encoded WAV and rejects the text-only request with the
generic ended-with-status error. -/
theorem c5_incomplete_status_dispatch_witness :
    (OutEvent.resolvedAudio c5AudioCur.id
      (decodeBase64PcmChunksToWavBlob c5AudioCur.streamedAudioChunks).data ∈
      (onRealtimeMessage (fun _ => true) (some c5DoneIncompleteEv) c5AudioState).trace) ∧
    (OutEvent.rejected c5TextCur.id "OpenAI response ended with status 'incomplete'" ∈
      (onRealtimeMessage (fun _ => true) (some c5DoneIncompleteEv) c5TextState).trace) :=
  ⟨c5_incomplete_status_dispatch.1 (fun _ => true) c5DoneIncompleteEv c5AudioState c5AudioCur
      (inv_run (fun _ => true) [MuxStep.enqueueAudio "hi" "French",
        MuxStep.message (some c5AudioDeltaEv)])
      (by decide) rfl rfl (by decide) rfl (by decide),
   c5_incomplete_status_dispatch.2 (fun _ => true) c5DoneIncompleteEv c5TextState c5TextCur
      (inv_run (fun _ => true) [MuxStep.enqueueText "hola" "inst"])
      (by decide) rfl rfl (by decide)⟩

/-- C9: a non-empty fragment list whose fragments all decode to zero bytes.
Part one: the codec returns the 44-byte WAV header with a zero-length data
chunk (not the zero-length empty-list result). Part two: an audio request
that accumulated only such fragments resolves with that 44-byte WAV instead
of being rejected for empty audio output. -/
theorem c9_zero_byte_fragments_resolve_header_wav :
    (∀ chunks : List String, chunks ≠ [] → (∀ c ∈ chunks, base64decode c = []) →
      decodeBase64PcmChunksToWavBlob chunks =
        { data := wavHeader 0 24000 1 16, type := "audio/wav" } ∧
      (decodeBase64PcmChunksToWavBlob chunks).size = 44) ∧
    (∀ (oracle : Nat → Bool) (s : MuxState) (cur : ActiveRequest),
      Inv s → s.activeRequest = some cur → cur.hasResolveAudio = true →
      cur.streamedAudioChunks ≠ [] →
      (∀ c ∈ cur.streamedAudioChunks, base64decode c = []) →
      OutEvent.resolvedAudio cur.id (wavHeader 0 24000 1 16) ∈
        (settleActiveSuccess oracle s).trace) := by
  have hpart1 : ∀ chunks : List String, chunks ≠ [] →
      (∀ c ∈ chunks, base64decode c = []) →
      decodeBase64PcmChunksToWavBlob chunks =
        { data := wavHeader 0 24000 1 16, type := "audio/wav" } := by
    intro chunks hne hdec
    have hflat : (chunks.map base64decode).flatten = [] := by
      rw [List.flatten_eq_nil_iff]
      intro l hl
      obtain ⟨c, hc, rfl⟩ := List.mem_map.mp hl
      exact hdec c hc
    unfold decodeBase64PcmChunksToWavBlob
    rw [if_neg (by simp [hne])]
    dsimp only
    rw [hflat]
    rfl
  constructor
  · intro chunks hne hdec
    exact ⟨hpart1 chunks hne hdec, by rw [hpart1 chunks hne hdec]; rfl⟩
  · intro oracle s cur hInv hact hra hne hdec
    have hm := (settleActiveSuccess_spec oracle s hInv).2.2 cur hact hra hne
    rwa [hpart1 cur.streamedAudioChunks hne hdec] at hm

/-- A concrete audio-delta frame whose fragment is the empty string (which
decodes to zero bytes). -/
def c9EmptyDeltaEv : OpenAiRealtimeServerEvent :=
  { type := some "response.audio.delta"
    delta := some ""
    text := none
    error := none
    response := none }

/-- The reachable state after enqueueing an audio request and receiving one
empty audio fragment. -/
def c9AudioState : MuxState :=
  run (fun _ => true) [MuxStep.enqueueAudio "hi" "French", MuxStep.message (some c9EmptyDeltaEv)]

/-- The active request held by `c9AudioState`. -/
def c9AudioCur : ActiveRequest :=
  { c5AudioCur with streamedAudioChunks := [""] }

/-- C9 witness: the single empty fragment yields the 44-byte header-only WAV,
and the audio request holding it resolves with that WAV. -/
theorem c9_zero_byte_fragments_resolve_header_wav_witness :
    (decodeBase64PcmChunksToWavBlob [""] =
      { data := wavHeader 0 24000 1 16, type := "audio/wav" } ∧
      (decodeBase64PcmChunksToWavBlob [""]).size = 44) ∧
    OutEvent.resolvedAudio c9AudioCur.id (wavHeader 0 24000 1 16) ∈
      (settleActiveSuccess (fun _ => true) c9AudioState).trace :=
  ⟨c9_zero_byte_fragments_resolve_header_wav.1 [""] (by decide) (by decide),
   c9_zero_byte_fragments_resolve_header_wav.2 (fun _ => true) c9AudioState c9AudioCur
     (inv_run (fun _ => true) [MuxStep.enqueueAudio "hi" "French",
       MuxStep.message (some c9EmptyDeltaEv)])
     (by decide) rfl (by decide) (by decide)⟩

/-- The dispatch loop only appends to the trace, with no shape hypotheses. -/
theorem processQueue_trace_mono (oracle : Nat → Bool) :
    ∀ (q : List QueuedRequest) (s : MuxState),
      ∃ tail, (processQueue oracle q s).trace = s.trace ++ tail
  | [], s => ⟨[], by simp [processQueue]⟩
  | next :: rest, s => by
    rw [processQueue]
    dsimp only
    split
    · exact ⟨[.activated next.id, .sent next.id], by simp⟩
    · split
      · exact ⟨[.activated next.id, .sent next.id], by simp⟩
      · obtain ⟨tail, ht⟩ := processQueue_trace_mono oracle rest _
        exact ⟨[.activated next.id, .rejected next.id connectFailedMsg] ++ tail,
          by rw [ht]; simp⟩

/-- `processNextRequest` only appends to the trace. -/
theorem processNext_trace_mono (oracle : Nat → Bool) (s : MuxState) :
    ∃ tail, (processNextRequest oracle s).trace = s.trace ++ tail := by
  unfold processNextRequest
  split
  · exact ⟨[], by simp⟩
  · exact processQueue_trace_mono oracle s.queuedRequests s

/-- Settling the active request as failed records its reject callback. -/
theorem settleActiveError_rejected_mem (oracle : Nat → Bool) (msg : String)
    (s : MuxState) (cur : ActiveRequest) (hact : s.activeRequest = some cur) :
    OutEvent.rejected cur.id msg ∈ (settleActiveError oracle msg s).trace := by
  rw [settleActiveError_some oracle msg s cur hact]
  obtain ⟨tail, ht⟩ := processNext_trace_mono oracle
    { s with activeRequest := none,
             pendingTimers := s.pendingTimers.filter (fun h => h ≠ cur.timerId),
             trace := s.trace ++ [.rejected cur.id msg] }
  rw [ht]
  simp

/-- C10: an unparseable frame (one the runtime's `JSON.parse` rejects, so the
handler receives no event) is silently dropped. Part one: a single such frame
leaves the whole state — slot, buffers, queue, connection — unchanged. Part
two: any sequence of such frames leaves the state unchanged. Part three: the
active request such frames starved still fails by its timeout, rejected with
the timeout message rather than any malformed-response error. -/
theorem c10_unparseable_frames_dropped :
    (∀ (oracle : Nat → Bool) (s : MuxState), onRealtimeMessage oracle none s = s) ∧
    (∀ (oracle : Nat → Bool) (frames : List (Option OpenAiRealtimeServerEvent))
      (s : MuxState), (∀ f ∈ frames, f = none) →
      frames.foldl (fun st f => onRealtimeMessage oracle f st) s = s) ∧
    (∀ (oracle : Nat → Bool) (s : MuxState) (cur : ActiveRequest),
      s.activeRequest = some cur → cur.timerId ∈ s.pendingTimers →
      OutEvent.rejected cur.id timeoutMsgText ∈
        (onTimerFires oracle cur.timerId s).trace) := by
  refine ⟨fun oracle s => rfl, ?_, ?_⟩
  · intro oracle frames
    induction frames with
    | nil => exact fun s _ => rfl
    | cons f rest ih =>
      intro s hall
      have hf : f = none := hall f (by simp)
      rw [List.foldl_cons, hf]
      exact ih (onRealtimeMessage oracle none s) (fun g hg => hall g (List.mem_cons_of_mem f hg))
  · intro oracle s cur hact hmem
    unfold onTimerFires
    rw [if_pos (by simpa using hmem)]
    dsimp only
    have hm := settleActiveError_rejected_mem oracle timeoutMsgText
      { s with pendingTimers := s.pendingTimers.filter (fun t => t ≠ cur.timerId) }
      cur (by exact hact)
    split
    · exact hm
    · exact hm

/-- C10 witness: dropping one and then two unparseable frames at the active
text-request state changes nothing, and the starved request's timer firing
rejects it with the timeout message. -/
theorem c10_unparseable_frames_dropped_witness :
    onRealtimeMessage (fun _ => true) none c5TextState = c5TextState ∧
    [none, none].foldl (fun st f => onRealtimeMessage (fun _ => true) f st) c5TextState =
      c5TextState ∧
    OutEvent.rejected c5TextCur.id timeoutMsgText ∈
      (onTimerFires (fun _ => true) c5TextCur.timerId c5TextState).trace :=
  ⟨c10_unparseable_frames_dropped.1 (fun _ => true) c5TextState,
   c10_unparseable_frames_dropped.2.1 (fun _ => true) [none, none] c5TextState (by decide),
   c10_unparseable_frames_dropped.2.2 (fun _ => true) c5TextState c5TextCur
     (by decide) (by decide)⟩

end PiggoTranslate